import Mathlib

/-!
Verification development for the subotai DHT core.

Shallow embedding of the routing table (src/routing/mod.rs), identifier
algebra (src/hash/mod.rs), local storage (src/storage/mod.rs) and the node
operation engine (src/node/mod.rs, src/node/resources.rs).

Hashes are modelled as natural numbers below 2 ^ 160 (the source stores them
as 20 little-endian bytes); XOR is Nat.xor. Wall-clock times and durations
are modelled as integers counting minutes. Fallible or panicking paths are
modelled explicitly.
-/

/-- HASH_SIZE from src/hash/mod.rs: hash length in bits. -/
def HASH_SIZE : Nat := 160

/-- HASH_SIZE_BYTES from src/hash/mod.rs. -/
def HASH_SIZE_BYTES : Nat := 20

/-- Scan bit indices k-1, k-2, ..., 0 and return the first set bit. This is
the bit-level reading of SubotaiHash::height, which scans bytes from the most
significant downwards and then bits inside the byte from 7 downwards. -/
def height_scan (n : Nat) : Nat → Option Nat
  | 0 => none
  | k + 1 => if n.testBit k then some k else height_scan n k

/-- SubotaiHash::height: the index of the highest set bit, none for a blank
hash. -/
def height (n : Nat) : Option Nat := height_scan n HASH_SIZE

/-- K_FACTOR from src/routing/mod.rs. -/
def K_FACTOR : Nat := 20

/-- NodeInfo from src/routing/mod.rs: an id plus a socket address (opaque,
modelled as a number). The source compares NodeInfo values by id alone; the
embedding compares ids explicitly wherever the source uses equality. -/
structure NodeInfo where
  id : Nat
  address : Nat
deriving DecidableEq

/-- EvictionConflict from src/routing/mod.rs. -/
structure EvictionConflict where
  evicted : NodeInfo
  evictor : NodeInfo
  times_pinged : Nat
deriving DecidableEq

/-- UpdateResult from src/routing/mod.rs. -/
inductive UpdateResult where
  | addedNode
  | updatedNode
  | causedConflict (conflict : EvictionConflict)
deriving DecidableEq

/-- Table::bucket_for_node: (parent_id ^ id).height().unwrap_or(0). -/
def bucket_for_node (parent_id id : Nat) : Nat :=
  (height (parent_id ^^^ id)).getD 0

/-- The bucket-level body of Table::update_node. The source first notes
whether an entry with the same id is present, removes all entries with that
id, then pops the front and records a conflict if the remaining length equals
K_FACTOR, and finally pushes the new descriptor at the back. The empty-list
arm is unreachable (it would be the panicking pop_front().unwrap(), possible
only if K_FACTOR were 0). -/
def update_node (bucket : List NodeInfo) (info : NodeInfo) :
    UpdateResult × List NodeInfo :=
  let present := bucket.any (fun stored => stored.id == info.id)
  let retained := bucket.filter (fun stored => info.id != stored.id)
  if retained.length == K_FACTOR then
    match retained with
    | [] => (.addedNode, [info])
    | front :: rest =>
      (.causedConflict { evicted := front, evictor := info, times_pinged := 0 },
       rest ++ [info])
  else
    (if present then .updatedNode else .addedNode, retained ++ [info])

/-- Routing table: 160 buckets around a parent id. Buckets are indexed by a
function; only indices below HASH_SIZE are ever used by the source. -/
structure Table where
  buckets : Nat → List NodeInfo
  parent_id : Nat

/-- Table::update_node at the table level. -/
def table_update_node (t : Table) (info : NodeInfo) : UpdateResult × Table :=
  let index := bucket_for_node t.parent_id info.id
  let step := update_node (t.buckets index) info
  (step.1, { t with buckets := Function.update t.buckets index step.2 })

/-- The in-bucket body of Table::revert_conflict: find the first entry whose
id equals the evictor id and replace it with the evicted descriptor. -/
def replace_first_evictor (conflict : EvictionConflict) :
    List NodeInfo → List NodeInfo
  | [] => []
  | entry :: rest =>
    if conflict.evictor.id == entry.id then conflict.evicted :: rest
    else entry :: replace_first_evictor conflict rest

/-- Table::revert_conflict. -/
def table_revert_conflict (t : Table) (conflict : EvictionConflict) : Table :=
  let index := bucket_for_node t.parent_id conflict.evictor.id
  { t with
    buckets :=
      Function.update t.buckets index
        (replace_first_evictor conflict (t.buckets index)) }

/-- Table::len: total number of stored descriptors. -/
def table_len (t : Table) : Nat :=
  ((List.range HASH_SIZE).map (fun i => (t.buckets i).length)).sum

/-- Indices of set bits in ascending order (hash::IntoOnes). -/
def into_ones (d : Nat) : List Nat :=
  (List.range HASH_SIZE).filter (fun i => d.testBit i)

/-- Indices of clear bits in ascending order (hash::IntoZeroes). -/
def into_zeroes (d : Nat) : List Nat :=
  (List.range HASH_SIZE).filter (fun i => !(d.testBit i))

/-- Bucket visiting order of Table::closest_nodes_to: set-bit positions of
the distance in descending order, then clear-bit positions in ascending
order. -/
def lookup_order (d : Nat) : List Nat :=
  (into_ones d).reverse ++ into_zeroes d

/-- The in-bucket sort of ClosestNodesTo::next: descending XOR distance to
the reference (the iterator then pops from the back). -/
def sort_desc_by_distance (reference : Nat) (bucket : List NodeInfo) :
    List NodeInfo :=
  List.insertionSort
    (fun a b => (b.id ^^^ reference) ≤ (a.id ^^^ reference)) bucket

/-- The full emission sequence of the ClosestNodesTo iterator: walk the
buckets in lookup order; each bucket is sorted by descending distance and
then emitted by popping from the back, so it contributes its reversal. -/
def closest_nodes_to (t : Table) (reference : Nat) : List NodeInfo :=
  (lookup_order (t.parent_id ^^^ reference)).flatMap
    (fun index => (sort_desc_by_distance reference (t.buckets index)).reverse)

/-- SubotaiHash::random_at_distance over byte arrays (20 little-endian
bytes). The source zips the bytes of a fresh random hash and the reference in
most-significant-first order and copies the reference byte whenever the
(reversed) position index is below the requested distance. -/
def random_at_distance (reference random : List Nat) (distance : Nat) :
    List Nat :=
  (List.range HASH_SIZE_BYTES).map (fun p =>
    if HASH_SIZE_BYTES - 1 - p < distance then reference.getD p 0
    else random.getD p 0)

/-- Bytewise XOR of two hashes (BitXor for SubotaiHash). -/
def xor_bytes (a b : List Nat) : List Nat :=
  List.zipWith (fun x y => x ^^^ y) a b

/-- SubotaiHash::height at the byte level: find the last nonzero byte, then
its highest set bit. -/
def height_bytes (raw : List Nat) : Option Nat :=
  match raw.enum.reverse.find? (fun pair => pair.2 != 0) with
  | some (index, byte) =>
    ((List.range 8).reverse.find? (fun bit => (byte &&& (1 <<< bit)) != 0)).map
      (fun bit => 8 * index + bit)
  | none => none

/-- StorageEntry from src/storage/mod.rs. -/
inductive StorageEntry where
  | value (hash : Nat)
  | blob (data : List Nat)
deriving DecidableEq

/-- ExtendedEntry from src/storage/mod.rs. Expirations are integers counting
minutes of wall-clock time. -/
structure ExtendedEntry where
  entry : StorageEntry
  expiration : Int
  republish_ready : Bool
deriving DecidableEq

/-- StoreResult from src/storage/mod.rs. -/
inductive StoreResult where
  | success
  | storageFull
  | blobTooBig
  | massStoreFailed
deriving DecidableEq

/-- node::Configuration from src/node/mod.rs. -/
structure Configuration where
  alpha : Nat
  impatience : Nat
  k_factor : Nat
  max_conflicts : Nat
  max_storage : Nat
  max_storage_blob_size : Nat
  expiration_distance_threshold : Nat
  base_expiration_time_hrs : Int
  network_timeout_s : Int
deriving DecidableEq

/-- Default for node::Configuration. -/
def default_configuration : Configuration :=
  { alpha := 3
    impatience := 1
    k_factor := 20
    max_conflicts := 60
    max_storage := 10000
    max_storage_blob_size := 1024
    expiration_distance_threshold := 3
    base_expiration_time_hrs := 24
    network_timeout_s := 5 }

/-- time::Duration::minutes, in the minute-counting time model. -/
def duration_minutes (m : Int) : Int := m

/-- time::Duration::hours, in the minute-counting time model. -/
def duration_hours (h : Int) : Int := 60 * h

/-- The key-group map of Storage, modelled as an association list with
pairwise distinct keys. -/
abbrev KeyGroups : Type := List (Nat × List ExtendedEntry)

/-- Storage::len: entry count over all key groups. -/
def storage_len (kgs : KeyGroups) : Nat :=
  (kgs.map (fun g => g.2.length)).sum

/-- HashMap::get for the key-group map. -/
def find_group (kgs : KeyGroups) (key : Nat) : Option (List ExtendedEntry) :=
  (kgs.find? (fun g => g.1 == key)).map (fun g => g.2)

/-- HashMap::get_mut followed by in-place mutation: replace the group stored
under an existing key. -/
def set_group (kgs : KeyGroups) (key : Nat) (group : List ExtendedEntry) :
    KeyGroups :=
  kgs.map (fun g => if g.1 == key then (g.1, group) else g)

/-- Storage::is_big_blob. -/
def is_big_blob (cfg : Configuration) (entry : StorageEntry) : Bool :=
  match entry with
  | .blob data => decide (cfg.max_storage_blob_size < data.length)
  | .value _ => false

/-- The iter_mut().find(...) update inside Storage::store: the first pair
holding an equal value takes the later of the two expirations and drops its
republish-ready flag. -/
def refresh_pair (entry : StorageEntry) (expiration : Int) :
    List ExtendedEntry → List ExtendedEntry
  | [] => []
  | pair :: rest =>
    if pair.entry == entry then
      { pair with expiration := max pair.expiration expiration,
                  republish_ready := false } :: rest
    else pair :: refresh_pair entry expiration rest

/-- Storage::store. -/
def storage_store (cfg : Configuration) (now : Int) (kgs : KeyGroups)
    (key : Nat) (entry : StorageEntry) (expiration : Int) :
    StoreResult × KeyGroups :=
  if is_big_blob cfg entry then (.blobTooBig, kgs)
  else
    let clamped :=
      min expiration (now + duration_hours cfg.base_expiration_time_hrs)
    let initial_length := storage_len kgs
    match find_group kgs key with
    | some group =>
      if group.any (fun pair => pair.entry == entry) then
        (.success, set_group kgs key (refresh_pair entry clamped group))
      else if initial_length > cfg.max_storage then (.storageFull, kgs)
      else
        (.success,
         set_group kgs key
           (group ++ [{ entry := entry, expiration := clamped,
                        republish_ready := false }]))
    | none =>
      if initial_length > cfg.max_storage then (.storageFull, kgs)
      else
        (.success,
         kgs ++ [(key, [{ entry := entry, expiration := clamped,
                          republish_ready := false }])])

/-- Storage::clear_expired_entries: drop every pair whose expiration is not
strictly later than now, then drop groups that became empty. -/
def clear_expired_entries (now : Int) (kgs : KeyGroups) : KeyGroups :=
  (kgs.map (fun g =>
    (g.1, g.2.filter (fun pair => decide (now < pair.expiration))))).filter
      (fun g => !g.2.isEmpty)

/-- Storage::retrieve: purge expired entries, then hand back all values of
the key group, if it still exists. -/
def storage_retrieve (now : Int) (kgs : KeyGroups) (key : Nat) :
    KeyGroups × Option (List StorageEntry) :=
  let purged := clear_expired_entries now kgs
  (purged,
   (find_group purged key).map (fun group => group.map (fun pair => pair.entry)))

/-- node::State. -/
inductive NodeState where
  | offGrid
  | onGrid
  | defensive
  | shuttingDown
deriving DecidableEq

/-- SubotaiError variants relevant to the modelled operations. -/
inductive SubotaiError where
  | noResponse
  | nodeNotFound
  | unresponsiveNetwork
  | offGridError
  | outOfBounds
deriving DecidableEq

/-- The mutable per-node state shared by the operation engine
(node::resources::Resources), restricted to the purely data-bearing fields. -/
structure Resources where
  id : Nat
  table : Table
  storage : KeyGroups
  conflicts : List EvictionConflict
  state : NodeState
  configuration : Configuration

/-- Resources::update_table from src/node/resources.rs: run the table update,
then either revert the conflict (defensive) or enqueue it, entering the
defensive state when the queue reaches max_conflicts; finally leave the
off-grid state once the table outgrows k_factor. -/
def update_table (r : Resources) (info : NodeInfo) : Resources :=
  let defensive := r.state == NodeState.defensive
  let step := table_update_node r.table info
  let r1 := { r with table := step.2 }
  let r2 :=
    match step.1 with
    | .causedConflict conflict =>
      if defensive then { r1 with table := table_revert_conflict r1.table conflict }
      else
        let conflicts := r1.conflicts ++ [conflict]
        if conflicts.length == r.configuration.max_conflicts then
          { r1 with conflicts := conflicts, state := .defensive }
        else { r1 with conflicts := conflicts }
    | _ => r1
  if r2.state == NodeState.offGrid
      && decide (r2.configuration.k_factor < table_len r2.table) then
    { r2 with state := .onGrid }
  else r2

/-- WaveStrategy from src/node/resources.rs. -/
inductive WaveStrategy (T : Type) where
  | continueWith (nodes : List NodeInfo)
  | halt (result : T)

/-- Resources::wave. The response type and the strategy are parameters, as in
the generic source function; the oracle yields the responses collected in a
given round, and the fuel counts the rounds left before the global deadline.
The returned list accumulates every (packet, destination address) datagram
sent on the outbound socket. -/
def wave {α T : Type} (oracle : Nat → List α)
    (strategy : List α → List NodeInfo → WaveStrategy T) (packet : Nat) :
    Nat → List NodeInfo → List NodeInfo → List (Nat × Nat) →
    Except SubotaiError T × List (Nat × Nat)
  | 0, _, _, sent => (.error .unresponsiveNetwork, sent)
  | fuel + 1, nodes_to_query, queried, sent =>
    if nodes_to_query.isEmpty then (.error .unresponsiveNetwork, sent)
    else
      let sent := sent ++ nodes_to_query.map (fun node => (packet, node.address))
      let queried := queried ++ nodes_to_query
      match strategy (oracle fuel) queried with
      | .continueWith nodes => wave oracle strategy packet fuel nodes queried sent
      | .halt result => (.ok result, sent)

/-- Resources::retrieve: return the local copy when the storage holds one
(after the purge that Storage::retrieve performs); otherwise seed a wave with
the closest alpha known peers, excluding self. The strategy closure of the
source is abstracted as a parameter; it never runs on the paths settled here.
The result carries the sent datagrams and the storage as left behind by the
local lookup. -/
def resources_retrieve {α : Type} (r : Resources) (now : Int)
    (oracle : Nat → List α)
    (strategy : List α → List NodeInfo → WaveStrategy (List StorageEntry))
    (packet : Nat) (fuel : Nat) (key : Nat) :
    Except SubotaiError (List StorageEntry) × List (Nat × Nat) × KeyGroups :=
  let step := storage_retrieve now r.storage key
  match step.2 with
  | some entries => (.ok entries, [], step.1)
  | none =>
    let closest :=
      ((closest_nodes_to r.table key).filter
        (fun info => info.id != r.id)).take r.configuration.k_factor
    let seeds := closest.take r.configuration.alpha
    let outcome := wave oracle strategy packet fuel seeds [] []
    (outcome.1, outcome.2, step.1)

/-- rpc::RetrieveResult. -/
inductive RetrieveResult where
  | found (entries : List StorageEntry)
  | closest (nodes : List NodeInfo)

/-- Resources::handle_retrieve_response: cache every entry of a Found result
locally for one minute. -/
def handle_retrieve_response (r : Resources) (now : Int) (key : Nat)
    (result : RetrieveResult) : Resources :=
  match result with
  | .found entries =>
    { r with
      storage := entries.foldl (fun kgs entry =>
        (storage_store r.configuration now kgs key entry
          (now + duration_minutes 1)).2) r.storage }
  | .closest _ => r

/-- Node::with_configuration, line 244 of src/node/mod.rs: a fresh table is
immediately updated with the local descriptor. -/
def with_configuration_table (id : Nat) (address : Nat) : Table :=
  let table : Table := { buckets := fun _ => [], parent_id := id }
  (table_update_node table { id := id, address := address }).2

/-- Number of conflicts reported by one update result. -/
def conflict_count : UpdateResult → Nat
  | .causedConflict _ => 1
  | _ => 0

/-- Iterated Table::update_node over a bucket, counting reported conflicts. -/
def update_many (bucket : List NodeInfo) : List NodeInfo → Nat × List NodeInfo
  | [] => (0, bucket)
  | info :: rest =>
    let step := update_node bucket info
    let next := update_many step.2 rest
    (conflict_count step.1 + next.1, next.2)

/-- A pair is stored under a key when the key group exists and contains it. -/
def pair_stored (kgs : KeyGroups) (key : Nat) (pair : ExtendedEntry) : Prop :=
  ∃ group, find_group kgs key = some group ∧ pair ∈ group

/-- Characterization of bucket membership: an id lands in bucket i exactly
when the distance to the parent is below 2 ^ (i + 1) and either at least
2 ^ i, or zero with i = 0 (the unwrap_or(0) case of bucket_for_node). -/
def highest_bit_at (e i : Nat) : Prop :=
  e < 2 ^ (i + 1) ∧ (2 ^ i ≤ e ∨ (e = 0 ∧ i = 0))

/-- Bucket i is visited before bucket j in the bounce walk for distance d. -/
def before_idx (d i j : Nat) : Prop :=
  (d.testBit i = true ∧ d.testBit j = true ∧ j < i) ∨
  (d.testBit i = true ∧ d.testBit j = false) ∨
  (d.testBit i = false ∧ d.testBit j = false ∧ i < j)

/-- A concrete reference hash (20 bytes, little endian), standing in for the
random test hash of the random_at_a_distance unit test. -/
def sample_reference : List Nat :=
  [17, 2, 3, 4, 5, 6, 7, 8, 9, 10, 11, 12, 13, 14, 15, 16, 1, 2, 3, 200]

/-- A concrete value for the fresh random hash drawn inside
SubotaiHash::random_at_distance. -/
def sample_random : List Nat :=
  [99, 98, 97, 96, 95, 94, 93, 92, 91, 90, 89, 88, 87, 86, 85, 84, 83, 82, 81, 80]

/-- A full bucket of identical incumbents, used as a concrete witness
state. -/
def sample_bucket : List NodeInfo :=
  List.replicate K_FACTOR { id := 9, address := 0 }

/-- A concrete node in the defensive state whose bucket 3 is full. -/
def sample_defensive_resources : Resources :=
  { id := 0
    table := { buckets := fun i => if i = 3 then sample_bucket else [],
               parent_id := 0 }
    storage := []
    conflicts := []
    state := .defensive
    configuration := default_configuration }

/-- A concrete freshly booted node: empty storage and an empty table. -/
def sample_empty_resources : Resources :=
  { id := 0
    table := { buckets := fun _ => [], parent_id := 0 }
    storage := []
    conflicts := []
    state := .onGrid
    configuration := default_configuration }

/-- A concrete node holding a single already-expired pair under key 3. -/
def sample_stale_resources : Resources :=
  { id := 0
    table := { buckets := fun _ => [], parent_id := 0 }
    storage := [(3, [{ entry := StorageEntry.value 9, expiration := 0,
                       republish_ready := false }])]
    conflicts := []
    state := .onGrid
    configuration := default_configuration }

/-- A concrete one-peer table around parent id 0, for the bounce walk
witness. -/
def sample_walk_table : Table :=
  { buckets := fun i => if i = 3 then [{ id := 8, address := 0 }] else [],
    parent_id := 0 }

/-- Scanning a blank hash finds no set bit. -/
theorem height_scan_zero (k : Nat) : height_scan 0 k = none := by
  induction k with
  | zero => rfl
  | succ k ih => simp [height_scan, ih]

/-- The hash of a node is in bucket 0 of its own table. -/
theorem bucket_for_node_self (id : Nat) : bucket_for_node id id = 0 := by
  rw [bucket_for_node, Nat.xor_self]
  simp [height, height_scan_zero]

/-- The updated descriptor is always present in the bucket afterwards. -/
theorem mem_update_node (bucket : List NodeInfo) (info : NodeInfo) :
    info ∈ (update_node bucket info).2 := by
  unfold update_node
  dsimp only
  split
  · split <;> simp
  · simp

/-- C8: the contract of random_at_distance promised by the spec (bits 0..d
random, bits d..160 copied from the reference, so the XOR height is at most
d, and distance 0 reproduces the reference exactly) fails on the code: the
source copies the top *bytes* instead of the top bits. At the distance 30
used by the crate's own unit test all 20 bytes are copied, the result equals
the reference, the XOR height is none, and the test's unwrap panics; at
distance 0 nothing is copied and the result is the raw random hash. -/
theorem random_at_distance_byte_bug :
    random_at_distance sample_reference sample_random 30 = sample_reference ∧
    height_bytes (xor_bytes sample_reference
      (random_at_distance sample_reference sample_random 30)) = none ∧
    random_at_distance sample_reference sample_random 0 = sample_random ∧
    sample_random ≠ sample_reference := by decide

/-- C3 counterexample: the node constructor (src/node/mod.rs line 244)
inserts its own descriptor into the fresh routing table, so the local ID is
a stored peer of bucket 0, and a further update with the local ID is
reported as an ordinary refresh rather than being rejected. -/
theorem local_id_stored_on_construction :
    ({ id := 5, address := 77 : NodeInfo }) ∈
      (with_configuration_table 5 77).buckets 0 ∧
    (table_update_node (with_configuration_table 5 77)
      { id := 5, address := 77 }).1 = UpdateResult.updatedNode := by decide

/-- C3 (amended): the update operation does not reject a descriptor carrying
the local ID. The zero distance has no height, so unwrap_or(0) files the
descriptor under bucket 0, where it is stored; the constructor itself plants
the local descriptor there, so the local ID is present as a stored peer. -/
theorem update_node_accepts_local_id (t : Table) (info : NodeInfo)
    (h : info.id = t.parent_id) :
    bucket_for_node t.parent_id info.id = 0 ∧
    info ∈ (table_update_node t info).2.buckets 0 ∧
    ∀ idv addr, (with_configuration_table idv addr).buckets 0 =
      [{ id := idv, address := addr }] := by
  have hb : bucket_for_node t.parent_id info.id = 0 := by
    rw [h, bucket_for_node_self]
  refine ⟨hb, ?_, ?_⟩
  · unfold table_update_node
    dsimp only
    rw [hb]
    simpa [Function.update] using mem_update_node (t.buckets 0) info
  · intro idv addr
    have hb2 := bucket_for_node_self idv
    simp [with_configuration_table, table_update_node, update_node, hb2,
      Function.update, K_FACTOR]

/-- Witness for update_node_accepts_local_id at a concrete table. -/
theorem update_node_accepts_local_id_witness :
    bucket_for_node (with_configuration_table 3 9).parent_id 3 = 0 ∧
    ({ id := 3, address := 9 : NodeInfo }) ∈
      (table_update_node (with_configuration_table 3 9)
        { id := 3, address := 9 }).2.buckets 0 ∧
    ∀ idv addr, (with_configuration_table idv addr).buckets 0 =
      [{ id := idv, address := addr }] :=
  update_node_accepts_local_id (with_configuration_table 3 9)
    { id := 3, address := 9 } rfl

/-- C6 counterexample: with max_storage = 1 and the store already holding
exactly one entry (so the count is at, not above, capacity), a store of a
value not yet present succeeds instead of returning StorageFull, because the
source guards with a strict comparison. -/
theorem storage_full_off_by_one :
    storage_len [(0, [{ entry := StorageEntry.value 3, expiration := 100,
                        republish_ready := false }])] =
      ({ default_configuration with max_storage := 1 } : Configuration).max_storage ∧
    (storage_store { default_configuration with max_storage := 1 } 0
      [(0, [{ entry := StorageEntry.value 3, expiration := 100,
              republish_ready := false }])]
      1 (StorageEntry.value 9) 50).1 = StoreResult.success := by decide

/-- C6 (amended): a store of a value not already present under its key is
rejected with StorageFull, leaving the contents unchanged, exactly when the
total entry count strictly exceeds max_storage; a store of a value that is
already present under its key succeeds regardless of the count. -/
theorem storage_full_boundary (cfg : Configuration) (now : Int)
    (kgs : KeyGroups) (key : Nat) (entry : StorageEntry) (expiration : Int)
    (hblob : is_big_blob cfg entry = false) :
    (cfg.max_storage < storage_len kgs →
      (∀ group, find_group kgs key = some group →
        group.any (fun pair => pair.entry == entry) = false) →
      storage_store cfg now kgs key entry expiration = (.storageFull, kgs)) ∧
    ((∃ group, find_group kgs key = some group ∧
        group.any (fun pair => pair.entry == entry) = true) →
      (storage_store cfg now kgs key entry expiration).1 = .success) := by
  constructor
  · intro hfull hfresh
    unfold storage_store
    rw [hblob]
    dsimp only
    cases hfind : find_group kgs key with
    | none => simp [hfind, hfull]
    | some group => simp [hfind, hfresh group hfind, hfull]
  · intro hpresent
    obtain ⟨group, hfind, hany⟩ := hpresent
    unfold storage_store
    rw [hblob]
    simp [hfind, hany]

/-- Witness for storage_full_boundary at a concrete over-capacity store. -/
theorem storage_full_boundary_witness :
    (({ default_configuration with max_storage := 0 } : Configuration).max_storage <
        storage_len [(0, [{ entry := StorageEntry.value 3, expiration := 100,
                            republish_ready := false }])] →
      (∀ group, find_group [(0, [{ entry := StorageEntry.value 3, expiration := 100,
                                   republish_ready := false }])] 1 = some group →
        group.any (fun pair => pair.entry == StorageEntry.value 9) = false) →
      storage_store { default_configuration with max_storage := 0 } 0
        [(0, [{ entry := StorageEntry.value 3, expiration := 100,
                republish_ready := false }])] 1 (StorageEntry.value 9) 50 =
        (.storageFull,
         [(0, [{ entry := StorageEntry.value 3, expiration := 100,
                 republish_ready := false }])])) ∧
    ((∃ group, find_group [(0, [{ entry := StorageEntry.value 3, expiration := 100,
                                  republish_ready := false }])] 1 = some group ∧
        group.any (fun pair => pair.entry == StorageEntry.value 9) = true) →
      (storage_store { default_configuration with max_storage := 0 } 0
        [(0, [{ entry := StorageEntry.value 3, expiration := 100,
                republish_ready := false }])] 1 (StorageEntry.value 9) 50).1 =
        .success) :=
  storage_full_boundary { default_configuration with max_storage := 0 } 0
    [(0, [{ entry := StorageEntry.value 3, expiration := 100,
            republish_ready := false }])] 1 (StorageEntry.value 9) 50 (by decide)

/-- Lookup misses when the key is absent from the key list. -/
theorem find_group_eq_none_of_not_mem (kgs : KeyGroups) (key : Nat)
    (h : key ∉ kgs.map (fun g => g.1)) : find_group kgs key = none := by
  have hfind : kgs.find? (fun g => g.1 == key) = none := by
    rw [List.find?_eq_none]
    intro x hx hb
    apply h
    have hx1 : x.1 = key := by simpa using hb
    exact hx1 ▸ List.mem_map_of_mem _ hx
  rw [find_group, hfind]
  rfl

/-- Purging entries introduces no new keys. -/
theorem keys_clear_expired (now : Int) (kgs : KeyGroups) (k : Nat)
    (hk : k ∈ (clear_expired_entries now kgs).map (fun g => g.1)) :
    k ∈ kgs.map (fun g => g.1) := by
  obtain ⟨g, hg, rfl⟩ := List.mem_map.mp hk
  obtain ⟨g0, hg0, rfl⟩ := List.mem_map.mp (List.mem_of_mem_filter hg)
  simpa using List.mem_map_of_mem (fun g => g.1) hg0

/-- Unfolding of clear_expired_entries over a cons cell. -/
theorem clear_expired_cons (now : Int) (k : Nat) (grp : List ExtendedEntry)
    (rest : KeyGroups) :
    clear_expired_entries now ((k, grp) :: rest) =
      (if (grp.filter (fun pair => decide (now < pair.expiration))).isEmpty
       then clear_expired_entries now rest
       else (k, grp.filter (fun pair => decide (now < pair.expiration))) ::
              clear_expired_entries now rest) := by
  by_cases he : (grp.filter (fun pair => decide (now < pair.expiration))).isEmpty
  · simp [clear_expired_entries, he]
  · simp [clear_expired_entries, he]

/-- Unfolding of find_group over a cons cell. -/
theorem find_group_cons (k : Nat) (grp : List ExtendedEntry)
    (rest : KeyGroups) (key : Nat) :
    find_group ((k, grp) :: rest) key =
      if k = key then some grp else find_group rest key := by
  by_cases hk : k = key
  · subst hk
    rw [if_pos rfl, find_group, List.find?_cons_of_pos _ (by simp)]
    rfl
  · rw [if_neg hk, find_group, List.find?_cons_of_neg _ (by simpa using hk)]
    rfl

/-- Group lookup after the expiration purge: the group survives filtered by
strict expiration, and vanishes when the filter leaves nothing. -/
theorem find_group_clear_expired (now : Int) (kgs : KeyGroups) (key : Nat)
    (hkeys : (kgs.map (fun g => g.1)).Nodup) :
    find_group (clear_expired_entries now kgs) key =
      match find_group kgs key with
      | none => none
      | some group =>
        if (group.filter (fun pair => decide (now < pair.expiration))).isEmpty
        then none
        else some (group.filter (fun pair => decide (now < pair.expiration))) := by
  induction kgs with
  | nil => rfl
  | cons hd rest ih =>
    obtain ⟨k, grp⟩ := hd
    rw [List.map_cons, List.nodup_cons] at hkeys
    obtain ⟨hnotin, hrest⟩ := hkeys
    by_cases hk : k = key
    · subst hk
      rw [clear_expired_cons, find_group_cons, if_pos rfl]
      by_cases he : (grp.filter (fun pair => decide (now < pair.expiration))).isEmpty
      · rw [if_pos he]
        dsimp only
        rw [if_pos he]
        exact find_group_eq_none_of_not_mem _ _
          (fun hmem => hnotin (keys_clear_expired now rest k hmem))
      · rw [if_neg he]
        dsimp only
        rw [if_neg he, find_group_cons, if_pos rfl]
    · rw [clear_expired_cons, find_group_cons, if_neg hk]
      by_cases he : (grp.filter (fun pair => decide (now < pair.expiration))).isEmpty
      · rw [if_pos he]
        exact ih hrest
      · rw [if_neg he, find_group_cons, if_neg hk]
        exact ih hrest

/-- C7 counterexample: a pair expiring exactly at the current time is not
earlier than now, so by the claim it should survive the purge and be
returned; the source keeps only pairs with now strictly below the
expiration, so the pair is purged and the retrieve returns none. -/
theorem retrieve_purges_boundary_pair :
    (storage_retrieve 5 [(0, [{ entry := StorageEntry.value 7, expiration := 5,
                                republish_ready := false }])] 0).2 = none ∧
    ¬ ((5 : Int) < (5 : Int)) := by decide

/-- C7 (amended): retrieve first removes exactly those stored pairs whose
expiration is not strictly later than the current time (dropping key groups
that become empty), then returns the remaining values under the key, or none
when the group is empty or absent; only pairs whose expiration is strictly
later than now survive the purge. -/
theorem retrieve_purge_semantics (now : Int) (kgs : KeyGroups) (key : Nat)
    (hkeys : (kgs.map (fun g => g.1)).Nodup) :
    (∀ k pair, pair_stored (storage_retrieve now kgs key).1 k pair ↔
      (pair_stored kgs k pair ∧ now < pair.expiration)) ∧
    (∀ k group, find_group (storage_retrieve now kgs key).1 k = some group →
      group ≠ []) ∧
    (storage_retrieve now kgs key).2 =
      (find_group (storage_retrieve now kgs key).1 key).map
        (fun group => group.map (fun pair => pair.entry)) := by
  have h1 : (storage_retrieve now kgs key).1 = clear_expired_entries now kgs := rfl
  refine ⟨?_, ?_, rfl⟩
  · intro k pair
    rw [h1, pair_stored, pair_stored, find_group_clear_expired now kgs k hkeys]
    cases hfind : find_group kgs k with
    | none => simp
    | some group =>
      dsimp only
      by_cases he : (group.filter (fun p => decide (now < p.expiration))).isEmpty
      · rw [if_pos he]
        rw [List.isEmpty_iff] at he
        constructor
        · rintro ⟨g, hg, -⟩
          cases hg
        · rintro ⟨⟨g, hg, hm⟩, hlt⟩
          obtain rfl : group = g := Option.some.inj hg
          have hmem : pair ∈ group.filter (fun p => decide (now < p.expiration)) :=
            List.mem_filter.mpr ⟨hm, by simpa using hlt⟩
          rw [he] at hmem
          cases hmem
      · rw [if_neg he]
        constructor
        · rintro ⟨g, hg, hm⟩
          obtain rfl : group.filter (fun p => decide (now < p.expiration)) = g :=
            Option.some.inj hg
          have := List.mem_filter.mp hm
          exact ⟨⟨group, rfl, this.1⟩, by simpa using this.2⟩
        · rintro ⟨⟨g, hg, hm⟩, hlt⟩
          obtain rfl : group = g := Option.some.inj hg
          exact ⟨_, rfl, List.mem_filter.mpr ⟨hm, by simpa using hlt⟩⟩
  · intro k group hg
    rw [h1, find_group_clear_expired now kgs k hkeys] at hg
    cases hfind : find_group kgs k with
    | none => rw [hfind] at hg; cases hg
    | some g0 =>
      rw [hfind] at hg
      dsimp only at hg
      by_cases he : (g0.filter (fun p => decide (now < p.expiration))).isEmpty
      · rw [if_pos he] at hg
        cases hg
      · rw [if_neg he] at hg
        obtain rfl : g0.filter (fun p => decide (now < p.expiration)) = group :=
          Option.some.inj hg
        intro hnil
        exact he (by simp [hnil])

/-- Witness for retrieve_purge_semantics at a concrete store holding one
fresh and one stale pair under the same key. -/
theorem retrieve_purge_semantics_witness :
    (∀ k pair, pair_stored (storage_retrieve 5
        [(0, [{ entry := StorageEntry.value 7, expiration := 10,
                republish_ready := false },
              { entry := StorageEntry.value 8, expiration := 3,
                republish_ready := false }])] 0).1 k pair ↔
      (pair_stored [(0, [{ entry := StorageEntry.value 7, expiration := 10,
                           republish_ready := false },
                         { entry := StorageEntry.value 8, expiration := 3,
                           republish_ready := false }])] k pair ∧
       (5 : Int) < pair.expiration)) ∧
    (∀ k group, find_group (storage_retrieve 5
        [(0, [{ entry := StorageEntry.value 7, expiration := 10,
                republish_ready := false },
              { entry := StorageEntry.value 8, expiration := 3,
                republish_ready := false }])] 0).1 k = some group →
      group ≠ []) ∧
    (storage_retrieve 5
        [(0, [{ entry := StorageEntry.value 7, expiration := 10,
                republish_ready := false },
              { entry := StorageEntry.value 8, expiration := 3,
                republish_ready := false }])] 0).2 =
      (find_group (storage_retrieve 5
        [(0, [{ entry := StorageEntry.value 7, expiration := 10,
                republish_ready := false },
              { entry := StorageEntry.value 8, expiration := 3,
                republish_ready := false }])] 0).1 0).map
        (fun group => group.map (fun pair => pair.entry)) :=
  retrieve_purge_semantics 5
    [(0, [{ entry := StorageEntry.value 7, expiration := 10,
            republish_ready := false },
          { entry := StorageEntry.value 8, expiration := 3,
            republish_ready := false }])] 0 (by decide)

/-- The retain pass of Table::update_node removes nothing when no stored id
matches the incoming id. -/
theorem filter_eq_self_of_fresh (bucket : List NodeInfo) (info : NodeInfo)
    (h : ∀ stored ∈ bucket, stored.id ≠ info.id) :
    bucket.filter (fun stored => info.id != stored.id) = bucket :=
  List.filter_eq_self.mpr (fun a ha => by
    simpa using fun he => (h a ha) he.symm)

/-- Updating a full bucket with a fresh id evicts the front and reports the
conflict. -/
theorem update_node_conflict (bucket : List NodeInfo) (info : NodeInfo)
    (hfresh : ∀ stored ∈ bucket, stored.id ≠ info.id)
    (hlen : bucket.length = K_FACTOR) :
    ∃ front rest, bucket = front :: rest ∧
      update_node bucket info =
        (.causedConflict { evicted := front, evictor := info, times_pinged := 0 },
         rest ++ [info]) := by
  obtain ⟨front, rest, rfl⟩ : ∃ f r, bucket = f :: r := by
    cases bucket with
    | nil => simp [K_FACTOR] at hlen
    | cons f r => exact ⟨f, r, rfl⟩
  refine ⟨front, rest, rfl, ?_⟩
  have hfilter := filter_eq_self_of_fresh _ info hfresh
  simp only [update_node, hfilter]
  rw [if_pos (by simpa using hlen)]

/-- Inversion of a reported conflict: under the bucket-size invariant, a
conflict means the incoming id was fresh, the bucket was exactly full, the
evicted descriptor was the front and the evictor is the incoming one. -/
theorem update_node_conflict_inv (bucket : List NodeInfo) (info : NodeInfo)
    (hlen : bucket.length ≤ K_FACTOR) (conflict : EvictionConflict)
    (hconf : (update_node bucket info).1 = .causedConflict conflict) :
    (∀ stored ∈ bucket, stored.id ≠ info.id) ∧
    bucket.length = K_FACTOR ∧
    ∃ front rest, bucket = front :: rest ∧
      conflict = { evicted := front, evictor := info, times_pinged := 0 } ∧
      (update_node bucket info).2 = rest ++ [info] := by
  by_cases hc :
      ((bucket.filter (fun stored => info.id != stored.id)).length == K_FACTOR) = true
  · have hlenf : (bucket.filter (fun stored => info.id != stored.id)).length =
        K_FACTOR := by simpa using hc
    have hall : ∀ stored ∈ bucket, (info.id != stored.id) = true := by
      rw [← List.filter_length_eq_length]
      have := List.length_filter_le (fun stored => info.id != stored.id) bucket
      omega
    have hfresh : ∀ stored ∈ bucket, stored.id ≠ info.id := by
      intro s hs
      have := hall s hs
      simp at this
      exact fun he => this he.symm
    have hlenK : bucket.length = K_FACTOR := by
      have hfil := List.filter_eq_self.mpr hall
      rw [← hfil]
      exact hlenf
    obtain ⟨front, rest, hbucket, hstep⟩ := update_node_conflict bucket info hfresh hlenK
    rw [hstep] at hconf
    refine ⟨hfresh, hlenK, front, rest, hbucket, ?_, by rw [hstep]⟩
    cases hconf
    rfl
  · exfalso
    have : (update_node bucket info).1 =
        (if bucket.any (fun stored => stored.id == info.id) then
          UpdateResult.updatedNode else UpdateResult.addedNode) := by
      simp only [update_node]
      rw [if_neg hc]
    rw [this] at hconf
    by_cases hp : bucket.any (fun stored => stored.id == info.id) = true
    · rw [if_pos hp] at hconf
      cases hconf
    · rw [if_neg hp] at hconf
      cases hconf

/-- Filling a bucket with fresh, pairwise distinct ids and room to spare
reports no conflict and grows the bucket one entry per update. -/
theorem update_many_no_conflict (infos : List NodeInfo) :
    ∀ bucket : List NodeInfo,
      (infos.map (fun i => i.id)).Nodup →
      (∀ i ∈ infos, ∀ stored ∈ bucket, stored.id ≠ i.id) →
      bucket.length + infos.length ≤ K_FACTOR →
      (update_many bucket infos).1 = 0 ∧
      (update_many bucket infos).2.length = bucket.length + infos.length := by
  induction infos with
  | nil => intro bucket _ _ _; exact ⟨rfl, by simp [update_many]⟩
  | cons i rest ih =>
    intro bucket hnodup hfresh hcap
    have hfre : ∀ stored ∈ bucket, stored.id ≠ i.id :=
      fun s hs => hfresh i (by simp) s hs
    have hany : bucket.any (fun stored => stored.id == i.id) = false := by
      rw [List.any_eq_false]
      intro s hs
      simpa using hfre s hs
    have hfilter := filter_eq_self_of_fresh bucket i hfre
    have hlt : bucket.length < K_FACTOR := by
      simp only [List.length_cons] at hcap
      omega
    have hstep : update_node bucket i = (.addedNode, bucket ++ [i]) := by
      simp only [update_node, hfilter, hany]
      rw [if_neg (by simpa using Nat.ne_of_lt hlt)]
      simp
    rw [List.map_cons, List.nodup_cons] at hnodup
    obtain ⟨hnotin, hnodup⟩ := hnodup
    have hfresh2 : ∀ j ∈ rest, ∀ stored ∈ bucket ++ [i], stored.id ≠ j.id := by
      intro j hj s hs
      rcases List.mem_append.mp hs with hs | hs
      · exact hfresh j (by simp [hj]) s hs
      · rw [List.mem_singleton.mp hs]
        intro he
        exact hnotin (he ▸ List.mem_map_of_mem (fun x => x.id) hj)
    have hcap2 : (bucket ++ [i]).length + rest.length ≤ K_FACTOR := by
      simp only [List.length_append, List.length_singleton] at *
      simp only [List.length_cons] at hcap
      omega
    obtain ⟨hc, hl⟩ := ih (bucket ++ [i]) hnodup hfresh2 hcap2
    constructor
    · simp [update_many, hstep, conflict_count, hc]
    · have h2 : (update_many bucket (i :: rest)).2 =
          (update_many (bucket ++ [i]) rest).2 := by
        simp [update_many, hstep]
      rw [h2, hl]
      simp only [List.length_append, List.length_singleton, List.length_cons,
        List.length_nil]
      omega

/-- Reverting skips entries whose id differs from the evictor id. -/
theorem replace_first_evictor_append (conflict : EvictionConflict)
    (xs ys : List NodeInfo) (h : ∀ s ∈ xs, conflict.evictor.id ≠ s.id) :
    replace_first_evictor conflict (xs ++ ys) =
      xs ++ replace_first_evictor conflict ys := by
  induction xs with
  | nil => rfl
  | cons x xs ih =>
    have hx : (conflict.evictor.id == x.id) = false := by
      simpa using h x (by simp)
    simp only [List.cons_append, replace_first_evictor, hx, Bool.false_eq_true,
      if_false]
    rw [show xs.append ys = xs ++ ys from rfl, ih (fun s hs => h s (by simp [hs]))]

/-- C1: the routing-table update contract. A descriptor whose id is already
present is moved to the back and reported Updated; a fresh descriptor joins a
non-full bucket as Added; a fresh descriptor meeting a full bucket evicts the
front, joins at the back, and reports the conflict (evicted front, evictor
the newcomer, zero probes). Consequently filling a bucket up to K_FACTOR
causes no conflict, and one further fresh insertion causes exactly one. -/
theorem routing_update_contract (bucket : List NodeInfo) (info : NodeInfo)
    (hlen : bucket.length ≤ K_FACTOR) :
    (bucket.any (fun stored => stored.id == info.id) = true →
      update_node bucket info =
        (.updatedNode,
         bucket.filter (fun stored => info.id != stored.id) ++ [info])) ∧
    (bucket.any (fun stored => stored.id == info.id) = false →
      bucket.length < K_FACTOR →
      update_node bucket info = (.addedNode, bucket ++ [info])) ∧
    (bucket.any (fun stored => stored.id == info.id) = false →
      bucket.length = K_FACTOR →
      ∃ front rest, bucket = front :: rest ∧
        update_node bucket info =
          (.causedConflict { evicted := front, evictor := info, times_pinged := 0 },
           rest ++ [info])) ∧
    (∀ infos : List NodeInfo,
      (infos.map (fun i => i.id)).Nodup →
      (∀ i ∈ infos, ∀ stored ∈ bucket, stored.id ≠ i.id) →
      bucket.length + infos.length ≤ K_FACTOR →
      (update_many bucket infos).1 = 0 ∧
      (update_many bucket infos).2.length = bucket.length + infos.length) ∧
    (∀ fresh : NodeInfo, bucket.length = K_FACTOR →
      (∀ stored ∈ bucket, stored.id ≠ fresh.id) →
      (update_many bucket [fresh]).1 = 1) := by
  have hfresh_of_any : ∀ j : NodeInfo,
      bucket.any (fun stored => stored.id == j.id) = false →
      ∀ stored ∈ bucket, stored.id ≠ j.id := by
    intro j hany s hs
    have := List.any_eq_false.mp hany s hs
    simpa using this
  refine ⟨?_, ?_, ?_, ?_, ?_⟩
  · intro hany
    have hex : ∃ s ∈ bucket, (s.id == info.id) = true := List.any_eq_true.mp hany
    have hltf : (bucket.filter (fun stored => info.id != stored.id)).length <
        bucket.length := by
      obtain ⟨s, hs, hsid⟩ := hex
      by_contra hge
      push_neg at hge
      have heq : (bucket.filter (fun stored => info.id != stored.id)).length =
          bucket.length :=
        Nat.le_antisymm (List.length_filter_le _ _) hge
      have := (List.filter_length_eq_length.mp heq) s hs
      simp at this hsid
      exact this hsid.symm
    simp only [update_node, hany]
    rw [if_neg (by simpa using Nat.ne_of_lt (Nat.lt_of_lt_of_le hltf hlen))]
    simp
  · intro hany hroom
    have hfre := hfresh_of_any info hany
    have hfilter := filter_eq_self_of_fresh bucket info hfre
    simp only [update_node, hfilter, hany]
    rw [if_neg (by simpa using Nat.ne_of_lt hroom)]
    simp
  · intro hany hfull
    exact update_node_conflict bucket info (hfresh_of_any info hany) hfull
  · intro infos hnodup hfresh hcap
    exact update_many_no_conflict infos bucket hnodup hfresh hcap
  · intro fresh hfull hfre
    obtain ⟨front, rest, hbucket, hstep⟩ :=
      update_node_conflict bucket fresh hfre hfull
    simp [update_many, hstep, conflict_count]

/-- Witness for routing_update_contract on an empty bucket. -/
theorem routing_update_contract_witness :
    (([] : List NodeInfo).any
        (fun stored => stored.id == ({ id := 4, address := 0 : NodeInfo }).id) = true →
      update_node [] { id := 4, address := 0 } =
        (.updatedNode,
         ([] : List NodeInfo).filter
           (fun stored => ({ id := 4, address := 0 : NodeInfo }).id != stored.id) ++
           [{ id := 4, address := 0 }])) ∧
    (([] : List NodeInfo).any
        (fun stored => stored.id == ({ id := 4, address := 0 : NodeInfo }).id) = false →
      ([] : List NodeInfo).length < K_FACTOR →
      update_node [] { id := 4, address := 0 } =
        (.addedNode, [] ++ [{ id := 4, address := 0 }])) ∧
    (([] : List NodeInfo).any
        (fun stored => stored.id == ({ id := 4, address := 0 : NodeInfo }).id) = false →
      ([] : List NodeInfo).length = K_FACTOR →
      ∃ front rest, ([] : List NodeInfo) = front :: rest ∧
        update_node [] { id := 4, address := 0 } =
          (.causedConflict { evicted := front, evictor := { id := 4, address := 0 },
                             times_pinged := 0 },
           rest ++ [{ id := 4, address := 0 }])) ∧
    (∀ infos : List NodeInfo,
      (infos.map (fun i => i.id)).Nodup →
      (∀ i ∈ infos, ∀ stored ∈ ([] : List NodeInfo), stored.id ≠ i.id) →
      ([] : List NodeInfo).length + infos.length ≤ K_FACTOR →
      (update_many [] infos).1 = 0 ∧
      (update_many [] infos).2.length = ([] : List NodeInfo).length + infos.length) ∧
    (∀ fresh : NodeInfo, ([] : List NodeInfo).length = K_FACTOR →
      (∀ stored ∈ ([] : List NodeInfo), stored.id ≠ fresh.id) →
      (update_many [] [fresh]).1 = 1) :=
  routing_update_contract [] { id := 4, address := 0 } (by decide)

/-- C4: the defensive state machine of Resources::update_table. When the
table update reports an eviction conflict and the node is not defensive, the
conflict is appended to the queue and the node turns defensive exactly when
the queue reaches max_conflicts entries. When the node is defensive, the
conflict is reverted on the spot: the queue and the state are untouched and
every bucket ends up with the same descriptors it started with (the incoming
evictor is expelled and the incumbent restored), so no conflicting update
replaces an incumbent peer. -/
theorem defensive_state_machine (r : Resources) (info : NodeInfo)
    (conflict : EvictionConflict)
    (hconf : (table_update_node r.table info).1 = .causedConflict conflict)
    (hlen : (r.table.buckets
      (bucket_for_node r.table.parent_id info.id)).length ≤ K_FACTOR) :
    (r.state ≠ .defensive →
      (update_table r info).conflicts = r.conflicts ++ [conflict] ∧
      ((update_table r info).state = .defensive ↔
        r.conflicts.length + 1 = r.configuration.max_conflicts)) ∧
    (r.state = .defensive →
      (update_table r info).conflicts = r.conflicts ∧
      (update_table r info).state = .defensive ∧
      ∀ i, List.Perm ((update_table r info).table.buckets i)
        (r.table.buckets i)) := by
  have hstep1 : (update_node
      (r.table.buckets (bucket_for_node r.table.parent_id info.id)) info).1 =
      .causedConflict conflict := hconf
  obtain ⟨hfresh, hlenK, front, rest, hbucket, hce, hb2⟩ :=
    update_node_conflict_inv _ info hlen conflict hstep1
  constructor
  · intro hnd
    have hdef : (r.state == NodeState.defensive) = false :=
      beq_eq_false_iff_ne.mpr hnd
    by_cases hmax : r.conflicts.length + 1 = r.configuration.max_conflicts
    · have hcon : (update_table r info).conflicts = r.conflicts ++ [conflict] := by
        simp [update_table, hconf, hdef, hmax]
      have hstate : (update_table r info).state = NodeState.defensive := by
        simp [update_table, hconf, hdef, hmax]
      exact ⟨hcon, by rw [hstate]; exact iff_of_true rfl hmax⟩
    · have hcon : (update_table r info).conflicts = r.conflicts ++ [conflict] := by
        simp only [update_table, hconf, hdef, Bool.false_eq_true, if_false]
        simp only [List.length_append, List.length_singleton]
        split <;> split <;> rfl
      refine ⟨hcon, ?_⟩
      have hstate : (update_table r info).state = NodeState.onGrid ∨
          (update_table r info).state = r.state := by
        simp [update_table, hconf, hdef, hmax]
        split
        · left; rfl
        · right; rfl
      constructor
      · intro hds
        rcases hstate with hs | hs <;> rw [hs] at hds
        · cases hds
        · exact absurd hds hnd
      · intro he
        exact absurd he hmax
  · intro hd
    have hdefT : (r.state == NodeState.defensive) = true := by rw [hd]; rfl
    have hoff : (r.state == NodeState.offGrid) = false := by rw [hd]; rfl
    have hresult : update_table r info =
        { r with table :=
            table_revert_conflict (table_update_node r.table info).2 conflict } := by
      simp [update_table, hconf, hdefT, hoff]
    refine ⟨by rw [hresult], by rw [hresult]; exact hd, ?_⟩
    intro i
    rw [hresult]
    have hev : conflict.evictor = info := by rw [hce]
    have hindex : bucket_for_node r.table.parent_id conflict.evictor.id =
        bucket_for_node r.table.parent_id info.id := by rw [hev]
    by_cases hi : i = bucket_for_node r.table.parent_id info.id
    · subst hi
      have hbval : (table_update_node r.table info).2.buckets
          (bucket_for_node r.table.parent_id info.id) = rest ++ [info] := by
        simp [table_update_node, Function.update, hb2]
      have hbrev : (table_revert_conflict (table_update_node r.table info).2
          conflict).buckets (bucket_for_node r.table.parent_id info.id) =
          replace_first_evictor conflict (rest ++ [info]) := by
        simp [table_revert_conflict, table_update_node, hindex,
          Function.update, hb2]
      rw [hbrev]
      have hskip : replace_first_evictor conflict (rest ++ [info]) =
          rest ++ replace_first_evictor conflict [info] := by
        apply replace_first_evictor_append
        intro s hs
        rw [hev]
        exact fun he => (hfresh s (by rw [hbucket]; exact List.mem_cons_of_mem _ hs)) he.symm
      have hone : replace_first_evictor conflict [info] = [front] := by
        simp [replace_first_evictor, hev, hce]
      rw [hskip, hone, hbucket]
      exact List.perm_append_singleton front rest
    · have hbval : (table_revert_conflict (table_update_node r.table info).2
          conflict).buckets i = r.table.buckets i := by
        simp [table_revert_conflict, table_update_node, hindex]
        rw [Function.update_noteq hi]
      rw [hbval]

/-- Witness for defensive_state_machine: a defensive node whose full bucket
meets a fresh descriptor; the conflicting update leaves every bucket with the
descriptors it started with. -/
theorem defensive_state_machine_witness :
    (sample_defensive_resources.state ≠ .defensive →
      (update_table sample_defensive_resources { id := 10, address := 1 }).conflicts =
        sample_defensive_resources.conflicts ++
          [{ evicted := { id := 9, address := 0 },
             evictor := { id := 10, address := 1 }, times_pinged := 0 }] ∧
      ((update_table sample_defensive_resources
          { id := 10, address := 1 }).state = .defensive ↔
        sample_defensive_resources.conflicts.length + 1 =
          sample_defensive_resources.configuration.max_conflicts)) ∧
    (sample_defensive_resources.state = .defensive →
      (update_table sample_defensive_resources { id := 10, address := 1 }).conflicts =
        sample_defensive_resources.conflicts ∧
      (update_table sample_defensive_resources
        { id := 10, address := 1 }).state = .defensive ∧
      ∀ i, List.Perm
        ((update_table sample_defensive_resources
          { id := 10, address := 1 }).table.buckets i)
        (sample_defensive_resources.table.buckets i)) :=
  defensive_state_machine sample_defensive_resources { id := 10, address := 1 }
    { evicted := { id := 9, address := 0 }, evictor := { id := 10, address := 1 },
      times_pinged := 0 } (by decide) (by decide)

/-- Unfolding of set_group over a cons cell. -/
theorem set_group_cons (k : Nat) (grp : List ExtendedEntry) (rest : KeyGroups)
    (key : Nat) (new : List ExtendedEntry) :
    set_group ((k, grp) :: rest) key new =
      (if k = key then (k, new) else (k, grp)) :: set_group rest key new := by
  by_cases hk : k = key <;> simp [set_group, hk]

/-- Appending a fresh key group makes it findable. -/
theorem find_group_append_none (kgs : KeyGroups) (key : Nat)
    (group : List ExtendedEntry) (h : find_group kgs key = none) :
    find_group (kgs ++ [(key, group)]) key = some group := by
  induction kgs with
  | nil => simp [find_group]
  | cons g rest ih =>
    obtain ⟨k, grp⟩ := g
    rw [List.cons_append, find_group_cons]
    rw [find_group_cons] at h
    by_cases hk : k = key
    · rw [if_pos hk] at h
      cases h
    · rw [if_neg hk] at h
      rw [if_neg hk]
      exact ih h

/-- Replacing an existing group makes the new value findable. -/
theorem find_group_set_group (kgs : KeyGroups) (key : Nat)
    (group new : List ExtendedEntry) (h : find_group kgs key = some group) :
    find_group (set_group kgs key new) key = some new := by
  induction kgs with
  | nil => simp [find_group] at h
  | cons g rest ih =>
    obtain ⟨k, grp⟩ := g
    rw [set_group_cons]
    rw [find_group_cons] at h
    by_cases hk : k = key
    · rw [if_pos hk, find_group_cons, if_pos hk]
    · rw [if_neg hk] at h
      rw [if_neg hk, find_group_cons, if_neg hk]
      exact ih h

/-- Refreshing walks past pairs holding other values and updates the pair
holding the stored value. -/
theorem refresh_pair_append_fresh (v : StorageEntry) (e e0 : Int) (b : Bool)
    (xs : List ExtendedEntry) (h : ∀ p ∈ xs, p.entry ≠ v) :
    refresh_pair v e
        (xs ++ [{ entry := v, expiration := e0, republish_ready := b }]) =
      xs ++ [{ entry := v, expiration := max e0 e, republish_ready := false }] := by
  induction xs with
  | nil => simp [refresh_pair]
  | cons x xs ih =>
    have hx : (x.entry == v) = false := by simpa using h x (by simp)
    simp only [List.cons_append, refresh_pair, hx, Bool.false_eq_true, if_false]
    rw [show xs.append [{ entry := v, expiration := e0, republish_ready := b }] =
        xs ++ [{ entry := v, expiration := e0, republish_ready := b }] from rfl]
    rw [ih (fun p hp => h p (by simp [hp]))]

/-- Evaluation of Storage::store when the key has no group yet. -/
theorem storage_store_new_key (cfg : Configuration) (now : Int)
    (kgs : KeyGroups) (key : Nat) (v : StorageEntry) (t : Int)
    (hblob : is_big_blob cfg v = false)
    (hfind : find_group kgs key = none)
    (hno : ¬ (storage_len kgs > cfg.max_storage)) :
    storage_store cfg now kgs key v t =
      (.success, kgs ++ [(key,
        [{ entry := v,
           expiration := min t (now + duration_hours cfg.base_expiration_time_hrs),
           republish_ready := false }])]) := by
  simp [storage_store, hblob, hfind, hno]

/-- Evaluation of Storage::store when the group exists but does not hold the
value. -/
theorem storage_store_fresh_value (cfg : Configuration) (now : Int)
    (kgs : KeyGroups) (key : Nat) (v : StorageEntry) (t : Int)
    (group : List ExtendedEntry)
    (hblob : is_big_blob cfg v = false)
    (hfind : find_group kgs key = some group)
    (hany : (group.any (fun pair => pair.entry == v)) = false)
    (hno : ¬ (storage_len kgs > cfg.max_storage)) :
    storage_store cfg now kgs key v t =
      (.success, set_group kgs key (group ++
        [{ entry := v,
           expiration := min t (now + duration_hours cfg.base_expiration_time_hrs),
           republish_ready := false }])) := by
  simp [storage_store, hblob, hfind, hany, hno]

/-- Evaluation of Storage::store when the group already holds the value. -/
theorem storage_store_present_value (cfg : Configuration) (now : Int)
    (kgs : KeyGroups) (key : Nat) (v : StorageEntry) (t : Int)
    (group : List ExtendedEntry)
    (hblob : is_big_blob cfg v = false)
    (hfind : find_group kgs key = some group)
    (hany : (group.any (fun pair => pair.entry == v)) = true) :
    storage_store cfg now kgs key v t =
      (.success, set_group kgs key
        (refresh_pair v (min t (now + duration_hours cfg.base_expiration_time_hrs))
          group)) := by
  simp [storage_store, hblob, hfind, hany]

/-- C5: the double-store law. Storing the same value twice under a key (the
value not being present beforehand, the blob within bounds, and the store
not full) leaves the key group with exactly one pair for the value, and its
expiration is min(max(t1, t2), now + base_expiration_hours). -/
theorem double_store_law (cfg : Configuration) (now t1 t2 : Int)
    (kgs : KeyGroups) (key : Nat) (v : StorageEntry)
    (hblob : is_big_blob cfg v = false)
    (hfresh : ∀ group, find_group kgs key = some group →
      ∀ pair ∈ group, pair.entry ≠ v)
    (hcap : storage_len kgs ≤ cfg.max_storage) :
    (storage_store cfg now kgs key v t1).1 = .success ∧
    (storage_store cfg now (storage_store cfg now kgs key v t1).2 key v t2).1 =
      .success ∧
    ∃ group,
      find_group (storage_store cfg now
        (storage_store cfg now kgs key v t1).2 key v t2).2 key = some group ∧
      (group.filter (fun pair => pair.entry == v)).length = 1 ∧
      ∀ pair ∈ group, pair.entry = v →
        pair.expiration =
          min (max t1 t2) (now + duration_hours cfg.base_expiration_time_hrs) := by
  have hno : ¬ (storage_len kgs > cfg.max_storage) := by omega
  cases hfind : find_group kgs key with
  | none =>
    have hs1 := storage_store_new_key cfg now kgs key v t1 hblob hfind hno
    have hfind1 : find_group (storage_store cfg now kgs key v t1).2 key =
        some [{ entry := v,
                expiration := min t1 (now + duration_hours cfg.base_expiration_time_hrs),
                republish_ready := false }] := by
      rw [hs1]
      exact find_group_append_none kgs key _ hfind
    have hany1 : (([{ entry := v,
                      expiration :=
                        min t1 (now + duration_hours cfg.base_expiration_time_hrs),
                      republish_ready := false }] : List ExtendedEntry).any
          (fun pair => pair.entry == v)) = true := by simp
    have hs2 := storage_store_present_value cfg now
      (storage_store cfg now kgs key v t1).2 key v t2 _ hblob hfind1 hany1
    have hrp : refresh_pair v
        (min t2 (now + duration_hours cfg.base_expiration_time_hrs))
        [{ entry := v,
           expiration := min t1 (now + duration_hours cfg.base_expiration_time_hrs),
           republish_ready := false }] =
        [{ entry := v,
           expiration :=
             max (min t1 (now + duration_hours cfg.base_expiration_time_hrs))
                 (min t2 (now + duration_hours cfg.base_expiration_time_hrs)),
           republish_ready := false }] := by
      simp [refresh_pair]
    rw [hrp] at hs2
    have hfg : find_group (storage_store cfg now
        (storage_store cfg now kgs key v t1).2 key v t2).2 key =
        some [{ entry := v,
                expiration :=
                  max (min t1 (now + duration_hours cfg.base_expiration_time_hrs))
                      (min t2 (now + duration_hours cfg.base_expiration_time_hrs)),
                republish_ready := false }] := by
      rw [hs2]
      exact find_group_set_group _ _ _ _ hfind1
    refine ⟨by rw [hs1], by rw [hs2], _, hfg, by simp, ?_⟩
    intro pair hp hpv
    rw [List.mem_singleton.mp hp]
    dsimp only
    omega
  | some g0 =>
    have hfr := hfresh g0 hfind
    have hany0 : (g0.any (fun pair => pair.entry == v)) = false := by
      rw [List.any_eq_false]
      intro p hp
      simpa using hfr p hp
    have hs1 := storage_store_fresh_value cfg now kgs key v t1 g0 hblob hfind hany0 hno
    have hfind1 : find_group (storage_store cfg now kgs key v t1).2 key =
        some (g0 ++
          [{ entry := v,
             expiration := min t1 (now + duration_hours cfg.base_expiration_time_hrs),
             republish_ready := false }]) := by
      rw [hs1]
      exact find_group_set_group _ _ _ _ hfind
    have hany1 : ((g0 ++
        [({ entry := v,
            expiration := min t1 (now + duration_hours cfg.base_expiration_time_hrs),
            republish_ready := false } : ExtendedEntry)]).any
          (fun pair => pair.entry == v)) = true := by
      simp
    have hs2 := storage_store_present_value cfg now
      (storage_store cfg now kgs key v t1).2 key v t2 _ hblob hfind1 hany1
    have hrp : refresh_pair v
        (min t2 (now + duration_hours cfg.base_expiration_time_hrs))
        (g0 ++ [{ entry := v,
                  expiration := min t1 (now + duration_hours cfg.base_expiration_time_hrs),
                  republish_ready := false }]) =
        g0 ++ [{ entry := v,
                 expiration :=
                   max (min t1 (now + duration_hours cfg.base_expiration_time_hrs))
                       (min t2 (now + duration_hours cfg.base_expiration_time_hrs)),
                 republish_ready := false }] :=
      refresh_pair_append_fresh v _ _ false g0 hfr
    rw [hrp] at hs2
    have hfilter0 : g0.filter (fun pair => pair.entry == v) = [] := by
      rw [List.filter_eq_nil_iff]
      intro p hp
      simpa using hfr p hp
    have hfg : find_group (storage_store cfg now
        (storage_store cfg now kgs key v t1).2 key v t2).2 key =
        some (g0 ++
          [{ entry := v,
             expiration :=
               max (min t1 (now + duration_hours cfg.base_expiration_time_hrs))
                   (min t2 (now + duration_hours cfg.base_expiration_time_hrs)),
             republish_ready := false }]) := by
      rw [hs2]
      exact find_group_set_group _ _ _ _ hfind1
    refine ⟨by rw [hs1], by rw [hs2], _, hfg, ?_, ?_⟩
    · rw [List.filter_append, hfilter0]
      simp
    · intro pair hp hpv
      rcases List.mem_append.mp hp with hp | hp
      · exact absurd hpv (hfr pair hp)
      · rw [List.mem_singleton.mp hp]
        dsimp only
        omega

/-- Witness for double_store_law: two stores of the same value on an empty
store, requesting expirations 100 and then 50 minutes with a 24-hour cap. -/
theorem double_store_law_witness :
    (storage_store default_configuration 0 [] 0 (StorageEntry.value 7) 100).1 =
      .success ∧
    (storage_store default_configuration 0
      (storage_store default_configuration 0 [] 0 (StorageEntry.value 7) 100).2
      0 (StorageEntry.value 7) 50).1 = .success ∧
    ∃ group,
      find_group (storage_store default_configuration 0
        (storage_store default_configuration 0 [] 0 (StorageEntry.value 7) 100).2
        0 (StorageEntry.value 7) 50).2 0 = some group ∧
      (group.filter (fun pair => pair.entry == StorageEntry.value 7)).length = 1 ∧
      ∀ pair ∈ group, pair.entry = StorageEntry.value 7 →
        pair.expiration =
          min (max 100 50)
            (0 + duration_hours default_configuration.base_expiration_time_hrs) :=
  double_store_law default_configuration 0 100 50 [] 0 (StorageEntry.value 7)
    (by decide) (by intro group h; simp [find_group] at h) (by decide)

/-- The purge is the identity on a store with no empty groups and no entry
due at or before now. -/
theorem clear_expired_eq_self (now : Int) (kgs : KeyGroups)
    (hclean : ∀ g ∈ kgs, g.2 ≠ [] ∧ ∀ pair ∈ g.2, now < pair.expiration) :
    clear_expired_entries now kgs = kgs := by
  induction kgs with
  | nil => rfl
  | cons g rest ih =>
    obtain ⟨k, grp⟩ := g
    obtain ⟨hne, hall⟩ := hclean (k, grp) (by simp)
    have hfil : grp.filter (fun pair => decide (now < pair.expiration)) = grp :=
      List.filter_eq_self.mpr (fun p hp => by simpa using hall p hp)
    rw [clear_expired_cons, hfil, if_neg (by simpa [List.isEmpty_iff] using hne)]
    rw [ih (fun g hg => hclean g (by simp [hg]))]

set_option maxRecDepth 4000 in
/-- C10 counterexample: the operation does modify the storage. On a node
whose storage holds one expired pair while its routing table is empty, a
retrieve of an absent key returns UnresponsiveNetwork and sends nothing —
the wave body never runs — yet the storage comes back empty, because
Resources::retrieve unconditionally runs the expired-entry purge of
Storage::retrieve before the wave is even considered. -/
theorem empty_seed_retrieve_purges_storage :
    (resources_retrieve sample_stale_resources 5 (fun _ => ([] : List Nat))
      (fun _ _ => WaveStrategy.continueWith []) 0 3 7).1 =
        .error .unresponsiveNetwork ∧
    (resources_retrieve sample_stale_resources 5 (fun _ => ([] : List Nat))
      (fun _ _ => WaveStrategy.continueWith []) 0 3 7).2.1 = [] ∧
    (resources_retrieve sample_stale_resources 5 (fun _ => ([] : List Nat))
      (fun _ _ => WaveStrategy.continueWith []) 0 3 7).2.2 = [] ∧
    sample_stale_resources.storage ≠ [] :=
  ⟨rfl, rfl, rfl, by decide⟩

/-- C10 (amended): a wave started with an empty seed set never executes its
loop body: it sends no datagram and returns UnresponsiveNetwork, whatever
the oracle, strategy, fuel or accumulated state. Consequently a retrieve on
a node that does not hold the key locally and knows no peer other than
itself returns UnresponsiveNetwork, sends nothing, and does not touch the
routing table; the storage is left exactly as the unconditional
expired-entry purge of the preceding local lookup leaves it. -/
theorem empty_seed_wave_unresponsive {α : Type}
    (r : Resources) (now : Int) (oracle : Nat → List α)
    (strategy : List α → List NodeInfo → WaveStrategy (List StorageEntry))
    (packet fuel : Nat) (key : Nat)
    (hmiss : find_group (clear_expired_entries now r.storage) key = none)
    (hlone : ∀ i, ∀ p ∈ r.table.buckets i, p.id = r.id) :
    (∀ {β : Type} {T : Type} (oracle2 : Nat → List β)
        (strategy2 : List β → List NodeInfo → WaveStrategy T)
        (packet2 fuel2 : Nat) (queried : List NodeInfo)
        (sent : List (Nat × Nat)),
      wave oracle2 strategy2 packet2 fuel2 [] queried sent =
        (.error .unresponsiveNetwork, sent)) ∧
    resources_retrieve r now oracle strategy packet fuel key =
      (.error .unresponsiveNetwork, [], clear_expired_entries now r.storage) := by
  have hwave : ∀ {β : Type} {T : Type} (oracle2 : Nat → List β)
      (strategy2 : List β → List NodeInfo → WaveStrategy T)
      (packet2 fuel2 : Nat) (queried : List NodeInfo)
      (sent : List (Nat × Nat)),
      wave oracle2 strategy2 packet2 fuel2 [] queried sent =
        (.error .unresponsiveNetwork, sent) := by
    intro β T oracle2 strategy2 packet2 fuel2 queried sent
    cases fuel2 <;> rfl
  refine ⟨hwave, ?_⟩
  have hsr : storage_retrieve now r.storage key =
      (clear_expired_entries now r.storage, none) := by
    simp [storage_retrieve, hmiss]
  have hcl : ((closest_nodes_to r.table key).filter
      (fun info => info.id != r.id)) = [] := by
    rw [List.filter_eq_nil_iff]
    intro p hp
    obtain ⟨i, hi, hpin⟩ := List.mem_flatMap.mp hp
    have hpb : p ∈ r.table.buckets i := by
      have := List.mem_reverse.mp hpin
      exact ((List.perm_insertionSort _ (r.table.buckets i)).mem_iff).mp this
    simp [hlone i p hpb]
  have hw := hwave oracle strategy packet fuel ([] : List NodeInfo)
    ([] : List (Nat × Nat))
  simp [resources_retrieve, hsr, hcl, hw]

/-- Witness for empty_seed_wave_unresponsive on a freshly booted node. -/
theorem empty_seed_wave_unresponsive_witness :
    (∀ {β : Type} {T : Type} (oracle2 : Nat → List β)
        (strategy2 : List β → List NodeInfo → WaveStrategy T)
        (packet2 fuel2 : Nat) (queried : List NodeInfo)
        (sent : List (Nat × Nat)),
      wave oracle2 strategy2 packet2 fuel2 [] queried sent =
        (.error .unresponsiveNetwork, sent)) ∧
    resources_retrieve sample_empty_resources 0 (fun _ => ([] : List Nat))
      (fun _ _ => WaveStrategy.continueWith []) 0 3 7 =
      (.error .unresponsiveNetwork, [],
       clear_expired_entries 0 sample_empty_resources.storage) :=
  empty_seed_wave_unresponsive sample_empty_resources 0 (fun _ => ([] : List Nat))
    (fun _ _ => WaveStrategy.continueWith []) 0 3 7 (by rfl)
    (by intro i p hp; simp [sample_empty_resources] at hp)

/-- set_group is the identity when the key is absent. -/
theorem set_group_eq_self_of_not_mem (kgs : KeyGroups) (key : Nat)
    (new : List ExtendedEntry) (h : key ∉ kgs.map (fun x => x.1)) :
    set_group kgs key new = kgs := by
  induction kgs with
  | nil => rfl
  | cons x rest ih =>
    obtain ⟨k, grp⟩ := x
    simp only [List.map_cons, List.mem_cons] at h
    push_neg at h
    rw [set_group_cons, if_neg (fun he => h.1 he.symm), ih h.2]

/-- set_group keeps the key list unchanged. -/
theorem keys_set_group (kgs : KeyGroups) (key : Nat)
    (new : List ExtendedEntry) :
    (set_group kgs key new).map (fun x => x.1) = kgs.map (fun x => x.1) := by
  induction kgs with
  | nil => rfl
  | cons x rest ih =>
    obtain ⟨k, grp⟩ := x
    rw [set_group_cons]
    by_cases hk : k = key <;> simp [hk, ih]

/-- A failed lookup means the key is not in the key list. -/
theorem not_mem_keys_of_find_none (kgs : KeyGroups) (key : Nat)
    (h : find_group kgs key = none) : key ∉ kgs.map (fun x => x.1) := by
  induction kgs with
  | nil => simp
  | cons x rest ih =>
    obtain ⟨k, grp⟩ := x
    rw [find_group_cons] at h
    by_cases hk : k = key
    · rw [if_pos hk] at h
      cases h
    · rw [if_neg hk] at h
      simp only [List.map_cons, List.mem_cons]
      push_neg
      exact ⟨fun he => hk he.symm, ih h⟩

/-- Replacing the unique group under a key trades its length for the new
length in the total count. -/
theorem storage_len_set_group (kgs : KeyGroups) (key : Nat)
    (g new : List ExtendedEntry)
    (hkeys : (kgs.map (fun x => x.1)).Nodup)
    (hfind : find_group kgs key = some g) :
    storage_len (set_group kgs key new) + g.length =
      storage_len kgs + new.length := by
  induction kgs with
  | nil => simp [find_group] at hfind
  | cons x rest ih =>
    obtain ⟨k, grp⟩ := x
    rw [List.map_cons, List.nodup_cons] at hkeys
    obtain ⟨hnotin, hrest⟩ := hkeys
    rw [set_group_cons]
    rw [find_group_cons] at hfind
    by_cases hk : k = key
    · rw [if_pos hk] at hfind
      rw [if_pos hk]
      obtain rfl : grp = g := Option.some.inj hfind
      have hrest_id : set_group rest key new = rest :=
        set_group_eq_self_of_not_mem rest key new (hk ▸ hnotin)
      rw [hrest_id]
      simp [storage_len]
      omega
    · rw [if_neg hk] at hfind
      rw [if_neg hk]
      have := ih hrest hfind
      simp only [storage_len, List.map_cons, List.sum_cons] at this ⊢
      omega

/-- Refreshing a value whose pairs already expire at E keeps the value list
and the common expiration. -/
theorem refresh_pair_same_exp (v : StorageEntry) (E : Int)
    (g : List ExtendedEntry) (h : ∀ p ∈ g, p.expiration = E) :
    (refresh_pair v E g).map (fun p => p.entry) = g.map (fun p => p.entry) ∧
    ∀ p ∈ refresh_pair v E g, p.expiration = E := by
  induction g with
  | nil => exact ⟨rfl, by simp [refresh_pair]⟩
  | cons x xs ih =>
    by_cases hx : (x.entry == v) = true
    · simp only [refresh_pair, hx, if_true]
      refine ⟨by simp, ?_⟩
      intro p hp
      rcases List.mem_cons.mp hp with rfl | hp
      · have hxe : x.expiration = E := h x (by simp)
        simp [hxe]
      · exact h p (by simp [hp])
    · rw [Bool.not_eq_true] at hx
      simp only [refresh_pair, hx, Bool.false_eq_true, if_false]
      obtain ⟨hmap, hexp⟩ := ih (fun p hp => h p (by simp [hp]))
      refine ⟨by simp [hmap], ?_⟩
      intro p hp
      rcases List.mem_cons.mp hp with rfl | hp
      · exact h p (by simp)
      · exact hexp p hp

/-- Folding the one-minute cache stores over a store whose key group already
exists and expires exactly one minute from now: the group survives, keeps
the one-minute expiration on every pair, keeps every value it had, and gains
every stored value. -/
theorem cache_fold_invariant (cfg : Configuration) (now : Int) (key : Nat)
    (hbase : 1 ≤ cfg.base_expiration_time_hrs) :
    ∀ (entries : List StorageEntry) (kgs : KeyGroups) (g : List ExtendedEntry),
      (∀ e ∈ entries, is_big_blob cfg e = false) →
      storage_len kgs + entries.length ≤ cfg.max_storage + 1 →
      (kgs.map (fun x => x.1)).Nodup →
      find_group kgs key = some g →
      (∀ p ∈ g, p.expiration = now + duration_minutes 1) →
      ((entries.foldl (fun s e =>
          (storage_store cfg now s key e (now + duration_minutes 1)).2) kgs).map
            (fun x => x.1)).Nodup ∧
      ∃ gf, find_group (entries.foldl (fun s e =>
          (storage_store cfg now s key e (now + duration_minutes 1)).2) kgs) key =
          some gf ∧
        (∀ p ∈ gf, p.expiration = now + duration_minutes 1) ∧
        (∀ s ∈ g.map (fun p => p.entry), s ∈ gf.map (fun p => p.entry)) ∧
        (∀ e ∈ entries, e ∈ gf.map (fun p => p.entry)) := by
  have hclamp : min (now + duration_minutes 1)
      (now + duration_hours cfg.base_expiration_time_hrs) =
      now + duration_minutes 1 := by
    simp only [duration_minutes, duration_hours]
    omega
  intro entries
  induction entries with
  | nil =>
    intro kgs g _ _ hkeys hfind hexp
    exact ⟨hkeys, g, hfind, hexp, fun s hs => hs, by simp⟩
  | cons e rest ih =>
    intro kgs g hblob hcap hkeys hfind hexp
    by_cases hany : (g.any (fun pair => pair.entry == e)) = true
    · -- the value is already cached: the pair is refreshed in place
      have hs1 := storage_store_present_value cfg now kgs key e
        (now + duration_minutes 1) g (hblob e (by simp)) hfind hany
      rw [hclamp] at hs1
      obtain ⟨hmap, hexp1⟩ := refresh_pair_same_exp e (now + duration_minutes 1) g hexp
      have hlen1 : (refresh_pair e (now + duration_minutes 1) g).length = g.length := by
        have := congrArg List.length hmap
        simpa using this
      have hfind1 : find_group (storage_store cfg now kgs key e
          (now + duration_minutes 1)).2 key =
          some (refresh_pair e (now + duration_minutes 1) g) := by
        rw [hs1]
        exact find_group_set_group _ _ _ _ hfind
      have hkeys1 : ((storage_store cfg now kgs key e
          (now + duration_minutes 1)).2.map (fun x => x.1)).Nodup := by
        rw [hs1]
        simpa [keys_set_group] using hkeys
      have hcap1 : storage_len (storage_store cfg now kgs key e
          (now + duration_minutes 1)).2 + rest.length ≤ cfg.max_storage + 1 := by
        have hl := storage_len_set_group kgs key g
          (refresh_pair e (now + duration_minutes 1) g) hkeys hfind
        rw [hs1]
        dsimp only
        simp only [List.length_cons] at hcap
        omega
      obtain ⟨hkf, gf, hff, hfe, hfpers, hfnew⟩ :=
        ih _ _ (fun x hx => hblob x (by simp [hx])) hcap1 hkeys1 hfind1 hexp1
      refine ⟨hkf, gf, hff, hfe, ?_, ?_⟩
      · intro s hs
        exact hfpers s (by rw [hmap]; exact hs)
      · intro x hx
        rcases List.mem_cons.mp hx with rfl | hx
        · obtain ⟨p, hp, hpe⟩ := List.any_eq_true.mp hany
          have : x ∈ g.map (fun p => p.entry) := by
            refine List.mem_map.mpr ⟨p, hp, ?_⟩
            simpa using hpe
          exact hfpers x (by rw [hmap] at *; rw [hmap]; exact this)
        · exact hfnew x hx
    · -- the value is new in the group: it is appended with the one-minute
      -- expiration
      rw [Bool.not_eq_true] at hany
      have hno : ¬ (storage_len kgs > cfg.max_storage) := by
        simp only [List.length_cons] at hcap
        omega
      have hs1 := storage_store_fresh_value cfg now kgs key e
        (now + duration_minutes 1) g (hblob e (by simp)) hfind hany hno
      rw [hclamp] at hs1
      have hfind1 : find_group (storage_store cfg now kgs key e
          (now + duration_minutes 1)).2 key =
          some (g ++ [{ entry := e, expiration := now + duration_minutes 1,
                        republish_ready := false }]) := by
        rw [hs1]
        exact find_group_set_group _ _ _ _ hfind
      have hkeys1 : ((storage_store cfg now kgs key e
          (now + duration_minutes 1)).2.map (fun x => x.1)).Nodup := by
        rw [hs1]
        simpa [keys_set_group] using hkeys
      have hcap1 : storage_len (storage_store cfg now kgs key e
          (now + duration_minutes 1)).2 + rest.length ≤ cfg.max_storage + 1 := by
        have hl := storage_len_set_group kgs key g
          (g ++ [{ entry := e, expiration := now + duration_minutes 1,
                   republish_ready := false }]) hkeys hfind
        rw [hs1]
        dsimp only
        simp only [List.length_append, List.length_singleton] at hl
        simp only [List.length_cons] at hcap
        omega
      have hexp1 : ∀ p ∈ g ++ [({ entry := e, expiration := now + duration_minutes 1, republish_ready := false } : ExtendedEntry)], p.expiration = now + duration_minutes 1 := by
        intro p hp
        rcases List.mem_append.mp hp with hp | hp
        · exact hexp p hp
        · rw [List.mem_singleton.mp hp]
      obtain ⟨hkf, gf, hff, hfe, hfpers, hfnew⟩ :=
        ih _ _ (fun x hx => hblob x (by simp [hx])) hcap1 hkeys1 hfind1 hexp1
      refine ⟨hkf, gf, hff, hfe, ?_, ?_⟩
      · intro s hs
        refine hfpers s ?_
        simp only [List.map_append, List.mem_append]
        exact Or.inl hs
      · intro x hx
        rcases List.mem_cons.mp hx with rfl | hx
        · refine hfpers x ?_
          simp
        · exact hfnew x hx

/-- C9: handling a Found RetrieveResponse caches every returned entry under
the key with an expiration one minute from now; a retrieve performed on the
same node at any time strictly before that minute elapses finds the local
copy and returns it immediately, sending no datagram and starting no wave. -/
theorem retrieve_response_caches_locally (r : Resources) (now : Int)
    (key : Nat) (entries : List StorageEntry)
    (hne : entries ≠ [])
    (hblob : ∀ e ∈ entries, is_big_blob r.configuration e = false)
    (hbase : 1 ≤ r.configuration.base_expiration_time_hrs)
    (habsent : find_group r.storage key = none)
    (hkeys : (r.storage.map (fun x => x.1)).Nodup)
    (hcap : storage_len r.storage + entries.length ≤
      r.configuration.max_storage + 1) :
    (∀ e ∈ entries, ∃ pair,
      pair_stored (handle_retrieve_response r now key (.found entries)).storage
        key pair ∧
      pair.entry = e ∧ pair.expiration = now + duration_minutes 1) ∧
    (∀ (late : Int) {α : Type} (oracle : Nat → List α)
        (strategy : List α → List NodeInfo → WaveStrategy (List StorageEntry))
        (packet fuel : Nat), late < now + duration_minutes 1 →
      ∃ values,
        (resources_retrieve (handle_retrieve_response r now key (.found entries))
          late oracle strategy packet fuel key).1 = .ok values ∧
        (resources_retrieve (handle_retrieve_response r now key (.found entries))
          late oracle strategy packet fuel key).2.1 = [] ∧
        ∀ e ∈ entries, e ∈ values) := by
  obtain ⟨e0, rest, rfl⟩ : ∃ e0 rest, entries = e0 :: rest := by
    cases entries with
    | nil => exact absurd rfl hne
    | cons a b => exact ⟨a, b, rfl⟩
  have hclamp : min (now + duration_minutes 1)
      (now + duration_hours r.configuration.base_expiration_time_hrs) =
      now + duration_minutes 1 := by
    simp only [duration_minutes, duration_hours]
    omega
  have hno : ¬ (storage_len r.storage > r.configuration.max_storage) := by
    simp only [List.length_cons] at hcap
    omega
  have hs1 := storage_store_new_key r.configuration now r.storage key e0
    (now + duration_minutes 1) (hblob e0 (by simp)) habsent hno
  rw [hclamp] at hs1
  have hfind1 : find_group (storage_store r.configuration now r.storage key e0
      (now + duration_minutes 1)).2 key =
      some [{ entry := e0, expiration := now + duration_minutes 1,
              republish_ready := false }] := by
    rw [hs1]
    exact find_group_append_none _ _ _ habsent
  have hkeys1 : ((storage_store r.configuration now r.storage key e0
      (now + duration_minutes 1)).2.map (fun x => x.1)).Nodup := by
    rw [hs1]
    have hnm := not_mem_keys_of_find_none r.storage key habsent
    simp only [List.map_append, List.map_cons, List.map_nil]
    rw [List.nodup_append]
    exact ⟨hkeys, List.nodup_singleton key, by simpa using hnm⟩
  have hcap1 : storage_len (storage_store r.configuration now r.storage key e0
      (now + duration_minutes 1)).2 + rest.length ≤
      r.configuration.max_storage + 1 := by
    rw [hs1]
    dsimp only
    simp only [storage_len, List.map_append, List.map_cons, List.map_nil,
      List.sum_append, List.sum_cons, List.sum_nil, List.length_singleton]
    simp only [storage_len] at hcap
    simp only [List.length_cons] at hcap
    omega
  have hexp1 : ∀ p ∈ ([{ entry := e0, expiration := now + duration_minutes 1, republish_ready := false }] : List ExtendedEntry), p.expiration = now + duration_minutes 1 := by
    intro p hp
    rw [List.mem_singleton.mp hp]
  obtain ⟨hkf, gf, hff, hfe, hfpers, hfnew⟩ :=
    cache_fold_invariant r.configuration now key hbase rest _ _
      (fun x hx => hblob x (by simp [hx])) hcap1 hkeys1 hfind1 hexp1
  have hmem_of : ∀ e ∈ e0 :: rest, e ∈ gf.map (fun p => p.entry) := by
    intro e he
    rcases List.mem_cons.mp he with rfl | he
    · exact hfpers e (by simp)
    · exact hfnew e he
  constructor
  · intro e he
    obtain ⟨p, hp, hpe⟩ := List.mem_map.mp (hmem_of e he)
    exact ⟨p, ⟨gf, hff, hp⟩, hpe, hfe p hp⟩
  · intro late α oracle strategy packet fuel hlate
    have hfilter : gf.filter (fun pair => decide (late < pair.expiration)) = gf :=
      List.filter_eq_self.mpr (fun p hp => by
        rw [hfe p hp]
        exact decide_eq_true hlate)
    have hne2 : gf ≠ [] := by
      intro h0
      have hmm := hfpers e0 (by simp)
      rw [h0] at hmm
      cases hmm
    have hfg : find_group (clear_expired_entries late
        (handle_retrieve_response r now key (.found (e0 :: rest))).storage) key =
        some gf := by
      have hsto : (handle_retrieve_response r now key
          (.found (e0 :: rest))).storage =
          rest.foldl (fun s e =>
            (storage_store r.configuration now s key e
              (now + duration_minutes 1)).2)
            (storage_store r.configuration now r.storage key e0
              (now + duration_minutes 1)).2 := rfl
      have hchar := find_group_clear_expired late
        (handle_retrieve_response r now key (.found (e0 :: rest))).storage key
        (by rw [hsto]; exact hkf)
      rw [hsto, hff] at hchar
      dsimp only at hchar
      rw [hfilter] at hchar
      rw [if_neg (by simpa [List.isEmpty_iff] using hne2)] at hchar
      exact hchar
    refine ⟨gf.map (fun p => p.entry), ?_, ?_, ?_⟩
    · simp [resources_retrieve, storage_retrieve, hfg]
    · simp [resources_retrieve, storage_retrieve, hfg]
    · intro e he
      exact hmem_of e he

/-- Witness for retrieve_response_caches_locally: a Found response carrying
one value reaches a freshly booted node. -/
theorem retrieve_response_caches_locally_witness :
    (∀ e ∈ [StorageEntry.value 42], ∃ pair,
      pair_stored (handle_retrieve_response sample_empty_resources 0 7
          (.found [StorageEntry.value 42])).storage 7 pair ∧
      pair.entry = e ∧ pair.expiration = 0 + duration_minutes 1) ∧
    (∀ (late : Int) {α : Type} (oracle : Nat → List α)
        (strategy : List α → List NodeInfo → WaveStrategy (List StorageEntry))
        (packet fuel : Nat), late < 0 + duration_minutes 1 →
      ∃ values,
        (resources_retrieve (handle_retrieve_response sample_empty_resources 0 7
          (.found [StorageEntry.value 42]))
          late oracle strategy packet fuel 7).1 = .ok values ∧
        (resources_retrieve (handle_retrieve_response sample_empty_resources 0 7
          (.found [StorageEntry.value 42]))
          late oracle strategy packet fuel 7).2.1 = [] ∧
        ∀ e ∈ [StorageEntry.value 42], e ∈ values) :=
  retrieve_response_caches_locally sample_empty_resources 0 7
    [StorageEntry.value 42] (by decide) (by decide) (by decide) rfl
    (by decide) (by decide)

/-- A number in the dyadic block of index i has bit i set. -/
theorem testBit_msb (e i : Nat) (h1 : 2 ^ i ≤ e) (h2 : e < 2 ^ (i + 1)) :
    e.testBit i = true := by
  have hp : 2 ^ (i + 1) = 2 ^ i * 2 := Nat.pow_succ 2 i
  have hd : e / 2 ^ i = 1 := Nat.div_eq_of_lt_le (by omega) (by omega)
  simp [Nat.testBit, Nat.shiftRight_eq_div_pow, hd]

/-- Bits at or above the bounding exponent are clear. -/
theorem testBit_high {e k : Nat} (he : e < 2 ^ k) {m : Nat} (hm : k ≤ m) :
    e.testBit m = false :=
  Nat.testBit_lt_two_pow
    (lt_of_lt_of_le he (Nat.pow_le_pow_right (by norm_num) hm))

/-- Inversion of the top-down bit scan when it finds a set bit. -/
theorem height_scan_some (n : Nat) :
    ∀ k i, height_scan n k = some i →
      i < k ∧ n.testBit i = true ∧
        ∀ j, i < j → j < k → n.testBit j = false := by
  intro k
  induction k with
  | zero => intro i h; cases h
  | succ k ih =>
    intro i h
    simp only [height_scan] at h
    by_cases ht : n.testBit k
    · rw [if_pos ht] at h
      obtain rfl : k = i := Option.some.inj h
      exact ⟨Nat.lt_succ_self k, ht, fun j hj1 hj2 => by omega⟩
    · rw [if_neg ht] at h
      obtain ⟨hik, htb, hall⟩ := ih i h
      refine ⟨by omega, htb, ?_⟩
      intro j hj1 hj2
      by_cases hjk : j = k
      · rw [hjk]
        exact Bool.eq_false_iff.mpr ht
      · exact hall j hj1 (by omega)

/-- Inversion of the top-down bit scan when it finds nothing. -/
theorem height_scan_none (n : Nat) :
    ∀ k, height_scan n k = none → ∀ j, j < k → n.testBit j = false := by
  intro k
  induction k with
  | zero => intro h j hj; omega
  | succ k ih =>
    intro h j hj
    simp only [height_scan] at h
    by_cases ht : n.testBit k
    · rw [if_pos ht] at h
      cases h
    · rw [if_neg ht] at h
      by_cases hjk : j = k
      · rw [hjk]
        exact Bool.eq_false_iff.mpr ht
      · exact ih h j (by omega)

/-- The bucket index chosen by bucket_for_node pins the distance into its
dyadic block: it is below 2 ^ (i + 1) and, except for the zero distance in
bucket 0, at least 2 ^ i. -/
theorem highest_bit_at_of_bucket {parent pid i : Nat}
    (hp : parent < 2 ^ HASH_SIZE) (hid : pid < 2 ^ HASH_SIZE)
    (hb : bucket_for_node parent pid = i) :
    highest_bit_at (parent ^^^ pid) i := by
  have he : parent ^^^ pid < 2 ^ HASH_SIZE := Nat.xor_lt_two_pow hp hid
  rw [bucket_for_node] at hb
  cases hh : height (parent ^^^ pid) with
  | none =>
    rw [hh] at hb
    simp only [Option.getD_none] at hb
    have hz : parent ^^^ pid = 0 := by
      apply Nat.zero_of_testBit_eq_false
      intro j
      by_cases hj : j < HASH_SIZE
      · exact height_scan_none _ HASH_SIZE hh j hj
      · exact testBit_high he (by omega)
    rw [hz, ← hb]
    exact ⟨by norm_num, Or.inr ⟨rfl, rfl⟩⟩
  | some m =>
    rw [hh] at hb
    simp only [Option.getD_some] at hb
    subst hb
    obtain ⟨hmk, htb, hall⟩ := height_scan_some _ HASH_SIZE m hh
    constructor
    · apply Nat.lt_pow_two_of_testBit
      intro j hj
      by_cases hjk : j < HASH_SIZE
      · exact hall j (by omega) hjk
      · exact testBit_high he (by omega)
    · exact Or.inl (Nat.testBit_implies_ge htb)

/-- The heart of the bounce walk: if bucket i is visited before bucket j,
every distance reachable from bucket i is strictly below every distance
reachable from bucket j. Here e1 and e2 are the XOR distances of the two
peers to the parent id, and d is the distance from the parent to the
reference; the distances to the reference are e1 XOR d and e2 XOR d. -/
theorem cross_bucket_lt (d e1 e2 i j : Nat)
    (hb : before_idx d i j) (h1 : highest_bit_at e1 i)
    (h2 : highest_bit_at e2 j) :
    e1 ^^^ d < e2 ^^^ d := by
  obtain ⟨hu1, hl1⟩ := h1
  obtain ⟨hu2, hl2⟩ := h2
  have hhigh1 : ∀ m, i + 1 ≤ m → e1.testBit m = false := fun m hm =>
    testBit_high hu1 hm
  have hhigh2 : ∀ m, j + 1 ≤ m → e2.testBit m = false := fun m hm =>
    testBit_high hu2 hm
  rcases hb with ⟨hdi, hdj, hji⟩ | ⟨hdi, hdj⟩ | ⟨hdi, hdj, hij⟩
  · -- descending ones: both bits of d set and j < i; compare at bit i
    have he1i : e1.testBit i = true := by
      rcases hl1 with h | ⟨he0, hi0⟩
      · exact testBit_msb e1 i h hu1
      · omega
    apply Nat.lt_of_testBit i
    · rw [Nat.testBit_xor, he1i, hdi]
      rfl
    · rw [Nat.testBit_xor, hhigh2 i (by omega), hdi]
      rfl
    · intro m hm
      rw [Nat.testBit_xor, Nat.testBit_xor, hhigh1 m (by omega),
        hhigh2 m (by omega)]
  · -- a one bucket before a zero bucket
    rcases Nat.lt_trichotomy i j with hij | hij | hij
    · -- compare at bit j, which e2 owns
      have he2j : e2.testBit j = true := by
        rcases hl2 with h | ⟨he0, hj0⟩
        · exact testBit_msb e2 j h hu2
        · omega
      apply Nat.lt_of_testBit j
      · rw [Nat.testBit_xor, hhigh1 j (by omega), hdj]
        rfl
      · rw [Nat.testBit_xor, he2j, hdj]
        rfl
      · intro m hm
        rw [Nat.testBit_xor, Nat.testBit_xor, hhigh1 m (by omega),
          hhigh2 m (by omega)]
    · rw [hij] at hdi
      rw [hdi] at hdj
      cases hdj
    · -- compare at bit i, which e1 owns
      have he1i : e1.testBit i = true := by
        rcases hl1 with h | ⟨he0, hi0⟩
        · exact testBit_msb e1 i h hu1
        · omega
      apply Nat.lt_of_testBit i
      · rw [Nat.testBit_xor, he1i, hdi]
        rfl
      · rw [Nat.testBit_xor, hhigh2 i (by omega), hdi]
        rfl
      · intro m hm
        rw [Nat.testBit_xor, Nat.testBit_xor, hhigh1 m (by omega),
          hhigh2 m (by omega)]
  · -- ascending zeroes: both bits of d clear and i < j; compare at bit j
    have he2j : e2.testBit j = true := by
      rcases hl2 with h | ⟨he0, hj0⟩
      · exact testBit_msb e2 j h hu2
      · omega
    apply Nat.lt_of_testBit j
    · rw [Nat.testBit_xor, hhigh1 j (by omega), hdj]
      rfl
    · rw [Nat.testBit_xor, he2j, hdj]
      rfl
    · intro m hm
      rw [Nat.testBit_xor, Nat.testBit_xor, hhigh1 m (by omega),
        hhigh2 m (by omega)]

/-- The bounce order visits the buckets in the before_idx order. -/
theorem lookup_order_pairwise (d : Nat) :
    (lookup_order d).Pairwise (before_idx d) := by
  rw [lookup_order, List.pairwise_append]
  refine ⟨?_, ?_, ?_⟩
  · rw [List.pairwise_reverse]
    have h0 : (into_ones d).Pairwise (· < ·) :=
      List.Pairwise.filter _ (List.pairwise_lt_range _)
    have h1 := List.Pairwise.and_mem.mp h0
    refine h1.imp ?_
    rintro a b ⟨ha, hb, hab⟩
    have hta : d.testBit a = true := by
      simpa using (List.mem_filter.mp ha).2
    have htb : d.testBit b = true := by
      simpa using (List.mem_filter.mp hb).2
    exact Or.inl ⟨htb, hta, hab⟩
  · have h0 : (into_zeroes d).Pairwise (· < ·) :=
      List.Pairwise.filter _ (List.pairwise_lt_range _)
    have h1 := List.Pairwise.and_mem.mp h0
    refine h1.imp ?_
    rintro a b ⟨ha, hb, hab⟩
    have hta : d.testBit a = false := by
      simpa using (List.mem_filter.mp ha).2
    have htb : d.testBit b = false := by
      simpa using (List.mem_filter.mp hb).2
    exact Or.inr (Or.inr ⟨hta, htb, hab⟩)
  · intro a ha b hb
    have hta : d.testBit a = true := by
      simpa using (List.mem_filter.mp (List.mem_reverse.mp ha)).2
    have htb : d.testBit b = false := by
      simpa using (List.mem_filter.mp hb).2
    exact Or.inr (Or.inl ⟨hta, htb⟩)

/-- The bounce order visits every bucket index exactly once. -/
theorem lookup_order_perm (d : Nat) :
    List.Perm (lookup_order d) (List.range HASH_SIZE) :=
  (((into_ones d).reverse_perm).append_right (into_zeroes d)).trans
    (List.filter_append_perm _ _)

/-- Every bucket is emitted in ascending distance to the reference. -/
theorem emit_bucket_pairwise (reference : Nat) (bucket : List NodeInfo) :
    ((sort_desc_by_distance reference bucket).reverse).Pairwise
      (fun a b => a.id ^^^ reference ≤ b.id ^^^ reference) := by
  rw [List.pairwise_reverse]
  haveI : IsTotal NodeInfo
      (fun a b : NodeInfo => (b.id ^^^ reference) ≤ (a.id ^^^ reference)) :=
    ⟨fun a b => Nat.le_total _ _⟩
  haveI : IsTrans NodeInfo
      (fun a b : NodeInfo => (b.id ^^^ reference) ≤ (a.id ^^^ reference)) :=
    ⟨fun _ _ _ h1 h2 => Nat.le_trans h2 h1⟩
  exact List.sorted_insertionSort _ bucket

/-- Emitted descriptors come from the bucket. -/
theorem mem_emit_bucket {reference : Nat} {bucket : List NodeInfo}
    {p : NodeInfo}
    (hp : p ∈ (sort_desc_by_distance reference bucket).reverse) : p ∈ bucket :=
  ((List.perm_insertionSort _ bucket).mem_iff).mp (List.mem_reverse.mp hp)

/-- Shifting the base of an XOR distance. -/
theorem xor_distance_shift (l p ref : Nat) :
    (l ^^^ p) ^^^ (l ^^^ ref) = p ^^^ ref := by
  rw [Nat.xor_comm l p, Nat.xor_assoc, ← Nat.xor_assoc l l ref, Nat.xor_self,
    Nat.zero_xor]

/-- C2: the bounce walk. For a table whose buckets respect the placement
invariant, the walk of Table::closest_nodes_to visits the buckets given by
the set-bit positions of parent XOR reference in descending order and then
the clear-bit positions in ascending order — every bucket exactly once —
and, with each bucket sorted by distance before emission, the emitted peers
are in non-decreasing XOR distance to the reference. -/
theorem bounce_walk_monotone (t : Table) (reference : Nat)
    (hpid : t.parent_id < 2 ^ HASH_SIZE)
    (hwf : ∀ i, ∀ p ∈ t.buckets i, p.id < 2 ^ HASH_SIZE ∧
      bucket_for_node t.parent_id p.id = i) :
    List.Perm (lookup_order (t.parent_id ^^^ reference))
      (List.range HASH_SIZE) ∧
    (closest_nodes_to t reference).Pairwise
      (fun a b => a.id ^^^ reference ≤ b.id ^^^ reference) := by
  refine ⟨lookup_order_perm _, ?_⟩
  rw [closest_nodes_to, List.flatMap_def, List.pairwise_flatten]
  constructor
  · intro l hl
    obtain ⟨idx, hidx, rfl⟩ := List.mem_map.mp hl
    exact emit_bucket_pairwise reference (t.buckets idx)
  · rw [List.pairwise_map]
    refine (lookup_order_pairwise (t.parent_id ^^^ reference)).imp ?_
    intro i j hbij x hx y hy
    obtain ⟨hxlt, hxbf⟩ := hwf i x (mem_emit_bucket hx)
    obtain ⟨hylt, hybf⟩ := hwf j y (mem_emit_bucket hy)
    have h1 := highest_bit_at_of_bucket hpid hxlt hxbf
    have h2 := highest_bit_at_of_bucket hpid hylt hybf
    have hlt := cross_bucket_lt (t.parent_id ^^^ reference) _ _ i j hbij h1 h2
    rw [xor_distance_shift, xor_distance_shift] at hlt
    exact Nat.le_of_lt hlt

/-- Witness for bounce_walk_monotone on a one-peer table. -/
theorem bounce_walk_monotone_witness :
    List.Perm (lookup_order (sample_walk_table.parent_id ^^^ 1))
      (List.range HASH_SIZE) ∧
    (closest_nodes_to sample_walk_table 1).Pairwise
      (fun a b => a.id ^^^ 1 ≤ b.id ^^^ 1) :=
  bounce_walk_monotone sample_walk_table 1 (by decide)
    (by
      intro i p hp
      by_cases hi : i = 3
      · subst hi
        simp only [sample_walk_table, if_true, List.mem_singleton] at hp
        rw [hp]
        exact ⟨by decide, by decide⟩
      · simp [sample_walk_table, hi] at hp)
